import Mathlib

/-!
Shallow embedding of the championship-ledger and ranking core of the
wrestling database updater (`wrestling/update.py`, `wrestling/p4p.py`).

Python strings are modelled as `String`; a Python value that may be
`None`-or-string and is only ever used through truthiness tests is
modelled as a `String` where `""` plays the role of both `None` and the
empty string (the two are indistinguishable through every use site in
the embedded code).  Python `float` arithmetic is modelled over `ℚ`.
-/

set_option allowUnsafeReducibility true
attribute [local semireducible] Rat.mul Rat.inv Rat.add Rat.sub Rat.ofScientific

namespace Wrestling

/-! ### String helpers (Python `str.lower`, substring `in`)

All character-level work is done on `List Char` with structural
recursion, so every definition evaluates by kernel reduction. -/

/-- ASCII lower-casing of one character (Python `str.lower` on the
ASCII org/weight/method keywords the code matches against). -/
def charLower (c : Char) : Char :=
  if 'A' ≤ c ∧ c ≤ 'Z' then Char.ofNat (c.toNat + 32) else c

def strLower (s : String) : String := ⟨s.toList.map charLower⟩

/-- `headMatches needle hay` : `needle` is a leading run of `hay`. -/
def headMatches : List Char → List Char → Bool
  | [], _ => true
  | _ :: _, [] => false
  | a :: as, b :: bs => a == b && headMatches as bs

/-- `subIn needle hay` : Python `needle in hay` on character lists. -/
def subIn (needle : List Char) : List Char → Bool
  | [] => headMatches needle []
  | b :: bs => headMatches needle (b :: bs) || subIn needle bs

/-- Python `needle in hay` for strings. -/
def containsSub (hay needle : String) : Bool := subIn needle.toList hay.toList

/-! ### Dates

`parse_date` (update.py lines 58-70, p4p.py `_parse_date`) accepts
"Month Day, Year" and "Month Year" via `datetime.strptime`; `strptime`
treats a space in the format as one-or-more whitespace, matches month
names case-insensitively, and `datetime` validates the day against the
month length and requires year ≥ 1.  Ordering and subtraction of the
resulting date-only `datetime` values factor through the count of days
since 1 Jan of year 1, which is how we model them. -/

structure SimpleDate where
  year : Nat
  month : Nat
  day : Nat
  deriving DecidableEq

def isLeap (y : Nat) : Bool := (y % 4 == 0 && y % 100 != 0) || y % 400 == 0

def monthLen (y m : Nat) : Nat :=
  if m = 2 then (if isLeap y then 29 else 28)
  else if m = 4 ∨ m = 6 ∨ m = 9 ∨ m = 11 then 30
  else 31

/-- Days in the months strictly before month `m` of a non-leap year. -/
def cumMonthDays (m : Nat) : Nat :=
  match m with
  | 1 => 0 | 2 => 31 | 3 => 59 | 4 => 90 | 5 => 120 | 6 => 151
  | 7 => 181 | 8 => 212 | 9 => 243 | 10 => 273 | 11 => 304 | _ => 334

/-- Day count since 1 Jan of year 1 (proleptic Gregorian), the quantity
`(d2 - d1).days` of Python `datetime` subtraction factors through. -/
def toDays (d : SimpleDate) : Nat :=
  365 * (d.year - 1) + (d.year - 1) / 4 - (d.year - 1) / 100 + (d.year - 1) / 400
    + cumMonthDays d.month + (if 2 < d.month ∧ isLeap d.year then 1 else 0) + (d.day - 1)

/-- Python `d1 < d2` on date-only `datetime` values. -/
def dateLt (d1 d2 : SimpleDate) : Bool := toDays d1 < toDays d2

def monthNames : List (String × Nat) :=
  [("january", 1), ("february", 2), ("march", 3), ("april", 4),
   ("may", 5), ("june", 6), ("july", 7), ("august", 8),
   ("september", 9), ("october", 10), ("november", 11), ("december", 12)]

def parseMonth (t : List Char) : Option Nat :=
  (monthNames.find? (fun p => p.1.toList == t.map charLower)).map (fun p => p.2)

def digitsVal (cs : List Char) : Nat := cs.foldl (fun a c => a * 10 + (c.toNat - 48)) 0

/-- A run of 1 to `maxLen` decimal digits (the `\d{1,n}` groups `strptime`
compiles `%d` / `%Y` to). -/
def parseDigits (maxLen : Nat) (cs : List Char) : Option Nat :=
  if cs ≠ [] ∧ cs.length ≤ maxLen ∧ cs.all Char.isDigit then some (digitsVal cs) else none

/-- The `%d,` portion of "%B %d, %Y": 1-2 digits followed by the comma. -/
def parseDayComma (t : List Char) : Option Nat :=
  match t.reverse with
  | ',' :: rest => parseDigits 2 rest.reverse
  | _ => none

/-- `datetime(year, month, day)` validation: year ≥ 1 and day within the
month (month is 1-12 by construction from the month-name table). -/
def mkValidDate (y m d : Nat) : Option SimpleDate :=
  if 1 ≤ y ∧ 1 ≤ d ∧ d ≤ monthLen y m then some ⟨y, m, d⟩ else none

/-- Whitespace tokenisation: `strip()` plus `strptime`'s
one-or-more-whitespace matching between fields. -/
def wordsAux (cur : List Char) : List Char → List (List Char)
  | [] => if cur = [] then [] else [cur.reverse]
  | c :: cs =>
    if c == ' ' then (if cur = [] then wordsAux [] cs else cur.reverse :: wordsAux [] cs)
    else wordsAux (c :: cur) cs

/-- `parse_date` / `_parse_date`: try "%B %d, %Y" then "%B %Y" (day
defaults to the 1st); `None` on failure. -/
def parse_date (s : String) : Option SimpleDate :=
  match wordsAux [] s.toList with
  | [mt, dt, yt] =>
    match parseMonth mt, parseDayComma dt, parseDigits 4 yt with
    | some m, some d, some y => mkValidDate y m d
    | _, _, _ => none
  | [mt, yt] =>
    match parseMonth mt, parseDigits 4 yt with
    | some m, some y => mkValidDate y m 1
    | _, _ => none
  | _ => none

/-- `days_between` (update.py lines 72-78): `abs((d2 - d1).days)` when both
dates parse, else `None`. -/
def days_between (s1 s2 : String) : Option Int :=
  match parse_date s1, parse_date s2 with
  | some d1, some d2 => some (((toDays d2 : Int) - (toDays d1 : Int)).natAbs : Int)
  | _, _ => none

/-- `_year_of` (p4p.py lines 87-89): the parsed year, else 0. -/
def yearOf (s : String) : Int :=
  match parse_date s with
  | some d => (d.year : Int)
  | none => 0

/-! ### Data model (update.py)

`Match` carries the fields of the match dicts built by
`parse_match_card` (lines 379-397); `winner` is `none` for a draw or an
unrecognised result cell, and `parse_match_card` sets each match's
`date` to its event's date.  `Reign` carries the reign dicts built by
`reprocess_championships_chronologically` (lines 796-804);
`vacancy_message` is absent (`none`) until `process_vacancies` sets it,
and `vacancy_date` is a key no code path ever writes. -/

structure Match where
  fighter1 : String
  fighter2 : String
  fighter1_country : String
  fighter2_country : String
  winner : Option String
  is_draw : Bool
  method : String
  notes : String
  weight_class : String
  event : String
  date : String
  deriving DecidableEq

structure Event where
  name : String
  date : String
  matches' : List Match
  deriving DecidableEq

structure Reign where
  champion : String
  country : String
  date : String
  event : String
  defenses : Nat
  days : Option Int
  notes : String
  vacancy_message : Option String := none
  vacancy_date : Option String := none
  deriving DecidableEq

structure Vacancy where
  org : String
  weight : String
  champion : Option String
  date : String
  message : Option String
  deriving DecidableEq

/-- `self.championships`: a line of reigns per (organization, weight
class); the dict holds exactly the 4 × 6 known keys. -/
def Champ : Type := String → String → List Reign

def orgList : List String := ["wwf", "wwo", "iwb", "ring"]

def weightList : List String :=
  ["heavyweight", "bridgerweight", "middleweight", "welterweight", "lightweight", "featherweight"]

def titleKeywords : List String := ["title", "titles", "championship", "championships"]

def updateLine (c : Champ) (org weight : String) (l : List Reign) : Champ :=
  fun o w => if o = org ∧ w = weight then l else c o w

/-- `is_title_match` (lines 437-454): which orgs the notes mention
together with a title keyword.  (`not notes` is string truthiness.) -/
def is_title_match (notes : String) : Bool × List String :=
  if notes = "" then (false, [])
  else
    let nl := strLower notes
    let matched := orgList.filter
      (fun org => containsSub nl org && titleKeywords.any (fun k => containsSub nl k))
    (!matched.isEmpty, matched)

/-- The weight-class search shared by `check_championship_change` and
`reprocess_championships_chronologically` (lines 776-784): first listed
weight appearing in the lowercased notes or weight-class cell. -/
def findWeight (notes weight_class : String) : Option String :=
  weightList.find?
    (fun w => containsSub (strLower notes) w || containsSub (strLower weight_class) w)

/-- Line 791: a title can change hands on pinfall or submission, or on
any method not mentioning dq / countout / count out / disqualification. -/
def can_change_title (method : String) : Bool :=
  let ml := strLower method
  containsSub ml "pinfall" || containsSub ml "submission" ||
    (!containsSub ml "dq" && !containsSub ml "countout" &&
     !containsSub ml "count out" && !containsSub ml "disqualification")

/-- Python truthiness of `match['winner']` (`None` and `""` are falsy). -/
def winnerTruthy : Option String → Bool
  | none => false
  | some s => !(s = "")

def winnerStr : Option String → String
  | none => ""
  | some s => s

/-- The new-reign dict of lines 796-804. -/
def newReign (m : Match) : Reign :=
  { champion := winnerStr m.winner
    country := if m.winner = some m.fighter1 then m.fighter1_country else m.fighter2_country
    date := m.date
    event := m.event
    defenses := 0
    days := none
    notes := "Def. " ++ (if m.winner = some m.fighter1 then m.fighter2 else m.fighter1) }

/-- The defense update of lines 813-817: bump `defenses` and refresh
`days` progressively when both dates are truthy. -/
def bumpReign (m : Match) (last : Reign) : Reign :=
  { last with
      defenses := last.defenses + 1
      days := if last.date ≠ "" ∧ m.date ≠ "" then days_between last.date m.date
              else last.days }

/-- The per-org body of `reprocess_championships_chronologically`
(lines 786-817), acting on one title line. -/
def stepLine (m : Match) (line : List Reign) : List Reign :=
  let ml := strLower m.method
  match line.getLast? with
  | none =>
    if winnerTruthy m.winner && can_change_title m.method then [newReign m] else line
  | some last =>
    if winnerTruthy m.winner && !(last.champion = winnerStr m.winner) &&
        can_change_title m.method then
      line ++ [newReign m]
    else
      let champion_lost := winnerTruthy m.winner && !(winnerStr m.winner = last.champion) &&
        (containsSub ml "pinfall" || containsSub ml "submission")
      if champion_lost then line
      else line.dropLast ++ [bumpReign m last]

/-- The per-match body of the reprocessing loop (lines 770-817). -/
def processMatch (c : Champ) (m : Match) : Champ :=
  let t := is_title_match m.notes
  if !t.1 || !winnerTruthy m.winner then c
  else
    match findWeight m.notes m.weight_class with
    | none => c
    | some w => t.2.foldl (fun c org => updateLine c org w (stepLine m (c org w))) c

def replayMatches (c : Champ) (ms : List Match) : Champ := ms.foldl processMatch c

def emptyChamp : Champ := fun _ _ => []

/-- `reprocess_championships_chronologically` (lines 761-817): clear all
championship data (lines 763-766), then fold the events' matches in
order. -/
def reprocess (_c : Champ) (events : List Event) : Champ :=
  events.foldl (fun c e => replayMatches c e.matches') emptyChamp

/-- One reign's mutation in `process_vacancies` (lines 755-758). -/
def vacate (v : Vacancy) (r : Reign) : Reign :=
  { r with
      days := if r.date ≠ "" ∧ v.date ≠ "" then days_between r.date v.date else r.days
      vacancy_message := some ((v.message).getD "Title vacated") }

/-- The `for reign in reversed(current_reigns): ... break` search of
lines 753-759, on the reversed line. -/
def applyVacancyRev (v : Vacancy) : List Reign → List Reign
  | [] => []
  | r :: rs =>
    if r.champion = (v.champion).getD "" then vacate v r :: rs
    else r :: applyVacancyRev v rs

def applyVacancy (v : Vacancy) (line : List Reign) : List Reign :=
  (applyVacancyRev v line.reverse).reverse

/-- `process_vacancies` (lines 743-759). -/
def processVacancies (c : Champ) (vs : List Vacancy) : Champ :=
  vs.foldl (fun c v => updateLine c v.org v.weight (applyVacancy v (c v.org v.weight))) c

/-- One event of the most-recent-event-date scan of
`calculate_championship_days` (lines 950-955); `datetime` comparison is
day-count comparison. -/
def mrStep (acc : Option SimpleDate) (e : Event) : Option SimpleDate :=
  if e.date = "" then acc
  else
    match parse_date e.date with
    | none => acc
    | some d =>
      match acc with
      | none => some d
      | some mr => if dateLt mr d then some d else some mr

/-- The most-recent-event-date scan (lines 948-955). -/
def mostRecentDate (events : List Event) : Option SimpleDate :=
  events.foldl mrStep none

/-- The last-reign branch of lines 970-975. -/
def openDays (mr : Option SimpleDate) (date : String) : Option Int :=
  match mr with
  | none => none
  | some m =>
    if date = "" then none
    else
      match parse_date date with
      | none => none
      | some s => some ((toDays m : Int) - (toDays s : Int))

/-- The per-reign body of lines 961-975.  The loop reads only the `date`
of `reigns[i + 1]`, which it never mutates, so indexing into the
original list is the in-place iteration. -/
def calcReign (mr : Option SimpleDate) (reigns : List Reign) (i : Nat) (r : Reign) : Reign :=
  if r.days.isSome then r
  else
    match reigns.get? (i + 1) with
    | some next => { r with days := days_between r.date next.date }
    | none => { r with days := openDays mr r.date }

def calcLineAux (mr : Option SimpleDate) (orig : List Reign) : Nat → List Reign → List Reign
  | _, [] => []
  | i, r :: rs => calcReign mr orig i r :: calcLineAux mr orig (i + 1) rs

def calcLine (mr : Option SimpleDate) (reigns : List Reign) : List Reign :=
  calcLineAux mr reigns 0 reigns

/-- `calculate_championship_days` (lines 946-975). -/
def calculate (events : List Event) (c : Champ) : Champ :=
  fun o w => calcLine (mostRecentDate events) (c o w)

/-- The championship part of the `main()` pipeline (update.py lines
2261-2268): reprocess chronologically, apply vacancies, resolve days.
(`recalculate_bio_notes` touches only per-wrestler narrative notes.) -/
def pipeline (events : List Event) (vacancies : List Vacancy) : Champ :=
  calculate events (processVacancies (reprocess emptyChamp events) vacancies)

/-- A reign whose start date is one of the log's event dates and whose
resolved duration, if any, is non-negative. -/
def ReignOk (dates : List String) (r : Reign) : Prop :=
  r.date ∈ dates ∧ ∀ d : Int, r.days = some d → 0 ≤ d

/-- Every reign of every title line satisfies `ReignOk`. -/
def ChampOk (dates : List String) (c : Champ) : Prop :=
  ∀ org w r, r ∈ c org w → ReignOk dates r

/-! ### Wrestler aggregates and `record_match` (update.py lines 102-677)

`WRec` carries the numeric counters of the wrestler dicts created by
`get_wrestler`.  `record_match` is embedded on these counters; its
remaining side effects (appending narrative match entries, bio-note
strings, the apuestas list, and the provisional first-pass championship
state that `reprocess_championships_chronologically` discards) write
only to fields no embedded claim reads. -/

structure WRec where
  country : String := "un"
  wins : Nat := 0
  losses : Nat := 0
  draws : Nat := 0
  pinfall_wins : Nat := 0
  submission_wins : Nat := 0
  decision_wins : Nat := 0
  pinfall_losses : Nat := 0
  submission_losses : Nat := 0
  decision_losses : Nat := 0
  lucha_wins : Nat := 0
  main_events : Nat := 0
  wrestlemania_main_events : Nat := 0
  libremania_main_events : Nat := 0
  deriving DecidableEq

/-- `self.wrestlers` as a total map; `get_wrestler` default-creates. -/
def WState : Type := String → WRec

def initWState : WState := fun _ => {}

def upd (s : WState) (n : String) (f : WRec → WRec) : WState :=
  fun x => if x = n then f (s x) else s x

/-- Lines 508-509 of `record_match`: the country refresh. -/
def recCountry (m : Match) (s : WState) : WState :=
  upd (upd s m.fighter1 (fun w => { w with country := m.fighter1_country }))
    m.fighter2 (fun w => { w with country := m.fighter2_country })

/-- Lines 511-520 of `record_match`: main-event credit, with the
Wrestlemania / Libremania sub-counters. -/
def recMainEvent (m : Match) (is_main_event : Bool) (s : WState) : WState :=
  if is_main_event then
    let s := upd s m.fighter1 (fun w => { w with main_events := w.main_events + 1 })
    let s := upd s m.fighter2 (fun w => { w with main_events := w.main_events + 1 })
    if containsSub (strLower m.event) "wrestlemania" then
      let s := upd s m.fighter1
        (fun w => { w with wrestlemania_main_events := w.wrestlemania_main_events + 1 })
      upd s m.fighter2
        (fun w => { w with wrestlemania_main_events := w.wrestlemania_main_events + 1 })
    else if containsSub (strLower m.event) "libremania" then
      let s := upd s m.fighter1
        (fun w => { w with libremania_main_events := w.libremania_main_events + 1 })
      upd s m.fighter2
        (fun w => { w with libremania_main_events := w.libremania_main_events + 1 })
    else s
  else s

/-- Lines 602-643 of `record_match`: draw / win-loss counters,
method-split counters and the Lucha de Apuestas counter. -/
def recResult (m : Match) (s : WState) : WState :=
  if m.is_draw then
    let s := upd s m.fighter1 (fun w => { w with draws := w.draws + 1 })
    upd s m.fighter2 (fun w => { w with draws := w.draws + 1 })
  else if winnerTruthy m.winner then
    let winnerN := if winnerStr m.winner = m.fighter1 then m.fighter1 else m.fighter2
    let loserN := if winnerStr m.winner = m.fighter1 then m.fighter2 else m.fighter1
    let s := upd s winnerN (fun w => { w with wins := w.wins + 1 })
    let s := upd s loserN (fun w => { w with losses := w.losses + 1 })
    let ml := strLower m.method
    let s :=
      if containsSub ml "pinfall" then
        let s := upd s winnerN (fun w => { w with pinfall_wins := w.pinfall_wins + 1 })
        upd s loserN (fun w => { w with pinfall_losses := w.pinfall_losses + 1 })
      else if containsSub ml "submission" then
        let s := upd s winnerN (fun w => { w with submission_wins := w.submission_wins + 1 })
        upd s loserN (fun w => { w with submission_losses := w.submission_losses + 1 })
      else if !containsSub ml "draw" then
        let s := upd s winnerN (fun w => { w with decision_wins := w.decision_wins + 1 })
        upd s loserN (fun w => { w with decision_losses := w.decision_losses + 1 })
      else s
    if containsSub (strLower m.notes) "lucha de apuestas" ||
        containsSub (strLower m.notes) "apuesta" then
      upd s winnerN (fun w => { w with lucha_wins := w.lucha_wins + 1 })
    else s
  else s

/-- The counter updates of `record_match` (lines 498-677), in source
order: country refresh, main-event credit, then result counters. -/
def record_match (m : Match) (is_main_event : Bool) (s : WState) : WState :=
  recResult m (recMainEvent m is_main_event (recCountry m s))

/-! ### The match-card loop of `parse_match_card` (lines 342-403) -/

/-- One `<tr>` of a match card: the cell texts `parse_match_card`
extracts, plus the cell count it gates on (line 344). -/
structure Row where
  ncols : Nat
  match_type : String
  weight_class : String
  fighter1 : String
  fighter1_country : String
  result : String
  fighter2 : String
  fighter2_country : String
  method : String
  notes : String
  deriving DecidableEq

/-- Lines 363-397: the match dict built from a singles row. -/
def rowToMatch (row : Row) (event_name event_date : String) : Match :=
  let res := strLower row.result
  let winner : Option String :=
    if res = "def." ∨ res = "defeated" ∨ res = "def" then some row.fighter1 else none
  { fighter1 := row.fighter1
    fighter2 := row.fighter2
    fighter1_country := row.fighter1_country
    fighter2_country := row.fighter2_country
    winner := winner
    is_draw := res = "draw" ∨ res = "vs." ∨ res = "vs"
    method := row.method
    notes := row.notes
    weight_class := row.weight_class
    event := event_name
    date := event_date }

/-- One indexed row of the match loop: skip short rows (line 344), skip
non-singles rows (line 358), else record with main-event credit exactly
when the row index is the last index `L` of the whole card (line 402). -/
def cardStep (event_name event_date : String) (L : Nat) (s : WState) (p : Nat × Row) :
    WState :=
  if p.2.ncols < 7 then s
  else if !(strLower p.2.match_type = "singles") then s
  else record_match (rowToMatch p.2 event_name event_date) (p.1 = L) s

/-- The per-row loop of `parse_match_card` (lines 342-403). -/
def processCard (rows : List Row) (event_name event_date : String) (s : WState) : WState :=
  rows.enum.foldl (cardStep event_name event_date (rows.length - 1)) s

/-! ### p4p.py — constants (lines 30-70) -/

def MAJOR_ORGS : List String := ["wwf", "wwo", "iwb"]
def OPEN_WIN_YEARLY_BONUS : ℚ := 60
def OPEN_WIN_GOAT_TITLE_PTS : ℚ := 40
def P4P_MIN_BOUTS : Nat := 3
def P4P_MIN_CAREER_WINS : Nat := 2
def WOTY_MAX_WINS : ℚ := 7
def WOTY_MAX_TIMES : Nat := 5
def HOF_MAX_PER_YEAR : Nat := 3
def HOF_MIN_WINS : Nat := 15
def HOF_MIN_WIN_PCT : ℚ := 0.68
def HOF_MIN_SCORE : ℚ := 45
def HOF_RETIREMENT_YEARS : Int := 5
def HOF_REQUIRE_MAJOR : Bool := true

/-! ### p4p.py — database and caches

The scoring functions take the wrestler table, PPV-wrestler set and
championship lines of the `WrestlingDatabase`, plus the caches
`build_caches` derives (`match_results` sorted per name, `champ_years`,
`all_years`, `open_wins` from the wiki page).  Python floats are
modelled over `ℚ`; `round(x, 4)` is modelled as exact decimal
round-half-to-even. -/

structure Entry where
  year : Int
  result : String
  method : String
  m : Match
  deriving DecidableEq

structure P4PDb where
  wrestlers : List (String × WRec)
  ppv_wrestlers : List String
  championships : Champ

structure Cache where
  match_results : List (String × List Entry)
  champ_years : List (String × List Int)
  all_years : List Int
  open_wins : List (String × List Int)

def lookupD {β : Type} (l : List (String × β)) (k : String) (d : β) : β :=
  (l.lookup k).getD d

def matchResultsOf (cache : Cache) (n : String) : List Entry :=
  lookupD cache.match_results n []

def champYearsOf (cache : Cache) (n : String) : List Int :=
  lookupD cache.champ_years n []

def openWinsOf (cache : Cache) (n : String) : List Int :=
  lookupD cache.open_wins n []

/-- The `cumulative_record` closure (p4p.py lines 206-215): counts over
the sorted per-name list, stopping (`break`) at the first entry past
`up_to_year`. -/
def cumulative_record : List Entry → Int → Nat × Nat × Nat
  | [], _ => (0, 0, 0)
  | e :: es, y =>
    if e.year > y then (0, 0, 0)
    else
      let t := cumulative_record es y
      if e.result = "Win" then (t.1 + 1, t.2.1, t.2.2)
      else if e.result = "Loss" then (t.1, t.2.1 + 1, t.2.2)
      else if e.result = "Draw" then (t.1, t.2.1, t.2.2 + 1)
      else t

/-- Python `max(gen, default=0)` over the years of a result list. -/
def maxYearsD (l : List Entry) : Int :=
  match l with
  | [] => 0
  | e :: es => es.foldl (fun a x => max a x.year) e.year

/-- Floor of a rational, computable by kernel reduction. -/
def ratFloor (q : ℚ) : Int := Int.fdiv q.num (q.den : Int)

/-- `round(x, 4)`: Python round-half-to-even at 4 decimal places. -/
def pyRoundHalfEven (q : ℚ) : Int :=
  let f := ratFloor q
  if q - f < 1 / 2 then f
  else if q - f > 1 / 2 then f + 1
  else if f % 2 = 0 then f else f + 1

def round4 (q : ℚ) : ℚ := (pyRoundHalfEven (q * 10000) : ℚ) / 10000

/-- `opponent_rating` (p4p.py lines 270-292). -/
def opponent_rating (db : P4PDb) (cache : Cache) (opp : String) (fight_year : Int) : ℚ :=
  match db.wrestlers.lookup opp with
  | none => 5
  | some _ =>
    let cr := cumulative_record (matchResultsOf cache opp) fight_year
    let wins : ℚ := cr.1
    let total : ℚ := (cr.1 : ℚ) + (cr.2.1 : ℚ)
    let win_pct : ℚ := if total ≠ 0 then wins / total else 0
    let was_champ := (champYearsOf cache opp).any (fun y => y ≤ fight_year)
    if was_champ then min (80 + win_pct * 20) 100
    else if win_pct ≥ 0.70 ∧ total ≥ 5 then 60 + win_pct * 19
    else if win_pct ≥ 0.50 ∧ total ≥ 3 then 40 + win_pct * 19
    else if win_pct ≥ 0.40 then 20 + win_pct * 19
    else max 5 (win_pct * 19)

/-! ### p4p.py — `compute_score` (lines 305-552) -/

/-- All reigns with their org and weight, in the nested-loop order. -/
def allReigns (c : Champ) : List (String × String × Reign) :=
  orgList.flatMap (fun o => weightList.flatMap (fun w => (c o w).map (fun r => (o, w, r))))

/-- All lines with their org and weight. -/
def lineList (c : Champ) : List (String × String × List Reign) :=
  orgList.flatMap (fun o => weightList.map (fun w => (o, w, c o w)))

/-- All reigns paired with their enclosing line and index
(`for i, reign in enumerate(reigns)`). -/
def enumLines (c : Champ) : List (List Reign × Nat × Reign) :=
  (lineList c).flatMap (fun t => t.2.2.enum.map (fun p => (t.2.2, p.1, p.2)))

/-- `25 if org == 'ring' else (30 if org in MAJOR_ORGS else 10)`. -/
def orgPts (org : String) : ℚ :=
  if org = "ring" then 25 else if org ∈ MAJOR_ORGS then 30 else 10

/-- `reign.get('vacancy_date', '') or 9999` year fallback used for the
end year of a line's last reign (lines 426-429; no code path ever
writes `vacancy_date`). -/
def endYearLast (r : Reign) : Int :=
  let vy := yearOf ((r.vacancy_date).getD "")
  if vy = 0 then 9999 else vy

/-- The titles-held-this-year scan of lines 414-434, accumulating
(titles held, titles entering the year, title points). -/
def yrTitles (c : Champ) (name : String) (Y : Int) : Nat × Nat × ℚ :=
  (enumLines c).foldl
    (fun st x =>
      if x.2.2.champion ≠ name then st
      else
        let ry := yearOf x.2.2.date
        if ry = 0 ∨ ry > Y then st
        else
          let end_year :=
            match x.1.get? (x.2.1 + 1) with
            | some nxt => yearOf nxt.date
            | none => endYearLast x.2.2
          if end_year < Y then st
          else
            let held := st.1 + 1
            ( held,
              (if ry < Y then st.2.1 + 1 else st.2.1),
              st.2.2 + max (30 - ((held : ℚ) - 1) * 10) 10 ))
    (0, 0, 0)

/-- Lines 441-448: dates of the wrestler's title wins up to the year. -/
def champWinDates (c : Champ) (name : String) (Y : Int) : List String :=
  (allReigns c).filterMap
    (fun t =>
      if t.2.2.champion = name then
        let ry := yearOf t.2.2.date
        if ry ≠ 0 ∧ ry ≤ Y then some t.2.2.date else none
      else none)

/-- `is_top_calibre` (lines 462-468). -/
def is_top_calibre (cache : Cache) (opp : String) (as_of : Int) : Bool :=
  if (champYearsOf cache opp).any (fun y => y ≤ as_of) then true
  else
    let cr := cumulative_record (matchResultsOf cache opp) as_of
    let t2 := cr.1 + cr.2.1
    decide (t2 ≥ 5) && decide (((cr.1 : ℚ) / (t2 : ℚ)) ≥ 0.70)

/-- `compute_score` (lines 305-552). -/
def compute_score (db : P4PDb) (cache : Cache) (name : String) (ranking_year : Int)
    (goat_mode : Bool) : ℚ :=
  match db.wrestlers.lookup name with
  | none => 0
  | some w =>
    let results := matchResultsOf cache name
    let matches_to_date := results.filter (fun e => e.year ≤ ranking_year)
    if matches_to_date.isEmpty then 0
    else
      let this_year_matches := results.filter (fun e => e.year = ranking_year)
      let champs := db.championships
      if goat_mode then
        -- GOAT mode: pure career cumulative (lines 326-395)
        let qw := matches_to_date.foldl
          (fun (st : ℚ × Nat) e =>
            if e.result ≠ "Win" then st
            else
              let opp := if e.m.fighter1 = name then e.m.fighter2 else e.m.fighter1
              let base := opponent_rating db cache opp e.year
              let mult : ℚ :=
                if containsSub (strLower e.method) "pinfall" ||
                    containsSub (strLower e.method) "submission" then 1.2 else 1
              (st.1 + base * mult, st.2 + 1))
          (0, 0)
        let quality_wins_score :=
          min (qw.1 / (100 * (min (max qw.2 1) 30 : ℚ))) 1 * 100
        let wins := (matches_to_date.filter (fun e => e.result = "Win")).length
        let losses := (matches_to_date.filter (fun e => e.result = "Loss")).length
        let draws := (matches_to_date.filter (fun e => e.result = "Draw")).length
        let total : ℚ := (wins : ℚ) + (losses : ℚ) + 0.5 * (draws : ℚ)
        let win_pct : ℚ := if total ≠ 0 then (wins : ℚ) / total else 0
        let streak := (matches_to_date.foldl
          (fun (st : Nat × Nat) e =>
            if e.result = "Win" then (st.1 + 1, max st.2 (st.1 + 1)) else (0, st.2))
          (0, 0)).2
        let max_def := (allReigns champs).foldl
          (fun a t =>
            if t.2.2.champion = name ∧ yearOf t.2.2.date ≤ ranking_year then
              max a t.2.2.defenses
            else a)
          0
        let dominance_score :=
          min (win_pct * 70 + min ((streak : ℚ) * 2) 20 + min ((max_def : ℚ) * 5) 30) 100
        let tp := (allReigns champs).foldl
          (fun (st : ℚ × Int × Int) t =>
            if t.2.2.champion ≠ name then st
            else if yearOf t.2.2.date = 0 ∨ yearOf t.2.2.date > ranking_year then st
            else
              let d := (t.2.2.days).getD 0
              (st.1 + orgPts t.1, st.2.1 + d, max st.2.2 d))
          (0, 0, 0)
        let is_current_champ := (lineList champs).any
          (fun t =>
            match t.2.2.getLast? with
            | some r => r.champion = name ∧ r.vacancy_message = none
            | none => False)
        let championship_score :=
          min (min tp.1 85 + (if is_current_champ then 20 else 0)
            + min ((tp.2.1 : ℚ) / 365) 3 * 10 + min ((tp.2.2 : ℚ) / 365) 2 * 5) 100
        let draw_score := min ((w.main_events : ℚ) * 20) 100
        let open_win_years := (openWinsOf cache name).filter (fun y => y ≤ ranking_year)
        let open_bonus :=
          min ((open_win_years.length : ℚ) * OPEN_WIN_GOAT_TITLE_PTS)
            (OPEN_WIN_GOAT_TITLE_PTS * 3)
        let championship_score_with_open := min (championship_score + open_bonus) 100
        round4 (quality_wins_score * 0.40 + dominance_score * 0.25 +
          championship_score_with_open * 0.25 + draw_score * 0.10)
      else
        -- Yearly mode (lines 397-552)
        let yr_wins := (this_year_matches.filter (fun e => e.result = "Win")).length
        let yr_losses := (this_year_matches.filter (fun e => e.result = "Loss")).length
        let yr_draws := (this_year_matches.filter (fun e => e.result = "Draw")).length
        let yr_total := yr_wins + yr_losses + yr_draws
        let tt := yrTitles champs name ranking_year
        let title_pts_yr := min tt.2.2 80
        let held_title_yr := 0 < tt.1
        let entered_as_champ := 0 < tt.2.1
        let cwd := champWinDates champs name ranking_year
        let defenses_this_yr := (this_year_matches.filter
          (fun e => e.result = "Win" &&
            cwd.any (fun cd =>
              match parse_date cd, parse_date e.m.date with
              | some d1, some d2 => dateLt d1 d2
              | _, _ => false))).length
        let qw := this_year_matches.foldl
          (fun (st : ℚ × ℚ) e =>
            if e.result ≠ "Win" ∧ e.result ≠ "Draw" then st
            else
              let opp := if e.m.fighter1 = name then e.m.fighter2 else e.m.fighter1
              let base := opponent_rating db cache opp e.year
              if e.result = "Win" then
                let mult : ℚ :=
                  if containsSub (strLower e.method) "pinfall" ||
                      containsSub (strLower e.method) "submission" then 1.2 else 1
                let h2h : ℚ := if is_top_calibre cache opp e.year then 1.4 else 1
                let def_mult : ℚ := if entered_as_champ then 1.3 else 1
                (st.1 + base * mult * h2h * def_mult, st.2 + 1)
              else (st.1 + base * 0.40, st.2 + 0.4))
          (0, 0)
        let norm := max (min qw.2 WOTY_MAX_WINS) 1
        let yr_quality_score := min (qw.1 / (100 * norm)) 1 * 100
        let yr_quality_score := min (yr_quality_score + title_pts_yr * 0.3) 100
        let yr_winpct : ℚ := if yr_total ≠ 0 then (yr_wins : ℚ) / (yr_total : ℚ) else 0
        let defense_bonus := min ((defenses_this_yr : ℚ) * 10) 50
        let entering_champ_bonus := min ((tt.2.1 : ℚ) * 20) 40
        let yr_dom_score := min
          (yr_winpct * 30 + entering_champ_bonus +
            (if held_title_yr ∧ ¬entered_as_champ then 10 else 0) +
            defense_bonus + (tt.1 : ℚ) * 3) 100
        let fought_champ_yr := this_year_matches.any
          (fun e =>
            opponent_rating db cache
              (if e.m.fighter1 = name then e.m.fighter2 else e.m.fighter1) e.year ≥ 80)
        let yr_activity := min
          ((yr_total : ℚ) * 10 + (if fought_champ_yr then 25 else 0) +
            (if 0 < yr_draws then 15 else 0)) 100
        let year_score :=
          yr_quality_score * 0.50 + yr_dom_score * 0.30 + yr_activity * 0.20
        let cp := (allReigns champs).foldl
          (fun (st : ℚ × Int × Int) t =>
            if t.2.2.champion ≠ name then st
            else if yearOf t.2.2.date = 0 ∨ yearOf t.2.2.date > ranking_year then st
            else
              let d := (t.2.2.days).getD 0
              (st.1 + orgPts t.1, st.2.1 + d, max st.2.2 d))
          (0, 0, 0)
        let career_prestige := min
          (min cp.1 70 + min ((cp.2.1 : ℚ) / 365) 3 * 8 + min ((cp.2.2 : ℚ) / 365) 2 * 4)
          100
        let won_open_this_year := ranking_year ∈ openWinsOf cache name
        let open_yearly_bonus := if won_open_this_year then OPEN_WIN_YEARLY_BONUS else 0
        let raw := year_score * 0.80 + career_prestige * 0.20 + open_yearly_bonus
        let raw :=
          if this_year_matches.isEmpty ∧ ¬won_open_this_year then
            let last_fight := maxYearsD results
            let inactive := max (ranking_year - last_fight) 0
            raw * max (1 - (inactive : ℚ) * 0.20) 0.5
          else raw
        round4 raw

/-! ### p4p.py — yearly rankings (lines 572-695) -/

def charUpper (c : Char) : Char :=
  if 'a' ≤ c ∧ c ≤ 'z' then Char.ofNat (c.toNat - 32) else c

def strUpper (s : String) : String := ⟨s.toList.map charUpper⟩

/-- Python `str.capitalize`. -/
def strCapitalize (s : String) : String :=
  match s.toList with
  | [] => ""
  | c :: cs => ⟨charUpper c :: cs.map charLower⟩

def joinSep (sep : String) : List String → String
  | [] => ""
  | [x] => x
  | x :: xs => x ++ sep ++ joinSep sep xs

def digitChar (n : Nat) : Char := Char.ofNat (48 + n)

def natReprAux : Nat → Nat → List Char
  | 0, _ => []
  | fuel + 1, n =>
    if n < 10 then [digitChar n] else natReprAux fuel (n / 10) ++ [digitChar (n % 10)]

def natRepr (n : Nat) : String := ⟨natReprAux (n + 1) n⟩

/-- `titles_at_year` (lines 572-598). -/
def titles_at_year (db : P4PDb) (name : String) (year : Int) (cache : Cache) : String :=
  let step := fun (acc : List String) (t : String × String × List Reign) =>
    (t.2.2.enum.foldl
      (fun acc p =>
        let r := p.2
        if r.champion ≠ name then acc
        else
          let ry := yearOf r.date
          if ry = 0 ∨ ry > year then acc
          else
            let end_year :=
              match t.2.2.get? (p.1 + 1) with
              | some nxt => yearOf nxt.date
              | none => endYearLast r
            if end_year < year then acc
            else
              let label := if t.1 = "ring" then "<i>The Ring</i>" else strUpper t.1
              let txt := label ++ " " ++ strCapitalize t.2.1
              if txt ∈ acc then acc else acc ++ [txt])
      acc)
  let parts := (lineList db.championships).foldl step []
  let parts :=
    if year ∈ openWinsOf cache name then parts ++ ["The Open"] else parts
  joinSep " <br> " parts

structure RankRow where
  name : String
  score : ℚ
  record : String
  year_record : String
  primary : String
  titles : String
  deriving DecidableEq

/-- Stable descending sort by a rational key: the model of Python's
stable `list.sort(key=..., reverse=True)` (both are stable, so they
agree element-for-element). -/
def insertByKey {α : Type} (key : α → ℚ) (x : α) : List α → List α
  | [] => [x]
  | y :: ys => if key y ≤ key x then x :: y :: ys else y :: insertByKey key x ys

def sortByKeyDesc {α : Type} (key : α → ℚ) (l : List α) : List α :=
  l.foldr (insertByKey key) []

/-- The weight-class tally of lines 673-676. -/
def bumpWC : List (String × Nat) → String → List (String × Nat)
  | [], k => [(k, 1)]
  | (k2, v) :: rest, k =>
    if k2 = k then (k2, v + 1) :: rest else (k2, v) :: bumpWC rest k

/-- `max(wc_count, key=wc_count.get)`: first key of maximal count in
insertion order; `'Unknown'` for an empty tally. -/
def firstMaxKey : List (String × Nat) → String
  | [] => "Unknown"
  | (k, v) :: rest =>
    (rest.foldl (fun b p => if p.2 > b.2 then p else b) (k, v)).1

/-- The body of the candidate loop of `rank_for_year` (lines 636-679)
for one name: the eligibility gates, score, and display fields. -/
def rank_candidate_row (db : P4PDb) (cache : Cache) (year : Int) : String → Option RankRow :=
  (fun name =>
      if ¬ (name ∈ db.ppv_wrestlers) then none
      else
        let mr := matchResultsOf cache name
        let matches_to_year := mr.filter (fun e => e.year ≤ year)
        if matches_to_year.isEmpty then none
        else
          let last_fight := maxYearsD mr
          if last_fight < year - 2 then none
          else
            let wins_to_year := (matches_to_year.filter (fun e => e.result = "Win")).length
            let total_to_year := matches_to_year.length
            let won_open := year ∈ openWinsOf cache name
            if ¬won_open ∧ total_to_year < P4P_MIN_BOUTS then none
            else if ¬won_open ∧ wins_to_year < P4P_MIN_CAREER_WINS then none
            else
              let score := compute_score db cache name year false
              if score ≤ 0 then none
              else
                let cr := cumulative_record mr year
                let record :=
                  natRepr cr.1 ++ "-" ++ natRepr cr.2.1 ++ "-" ++ natRepr cr.2.2
                let this_year_m := mr.filter (fun e => e.year = year)
                let yr_w := (this_year_m.filter (fun e => e.result = "Win")).length
                let yr_l := (this_year_m.filter (fun e => e.result = "Loss")).length
                let yr_d := (this_year_m.filter (fun e => e.result = "Draw")).length
                let year_record :=
                  if this_year_m.isEmpty then "—"
                  else natRepr yr_w ++ "-" ++ natRepr yr_l ++ "-" ++ natRepr yr_d
                let wc := matches_to_year.foldl
                  (fun acc e => bumpWC acc e.m.weight_class) []
                let primary := firstMaxKey wc
                some
                  { name := name, score := score, record := record,
                    year_record := year_record, primary := primary,
                    titles := titles_at_year db name year cache })

/-- The candidate-building loop of `rank_for_year` (lines 635-679), in
`gender_set` iteration order. -/
def rank_candidates (db : P4PDb) (cache : Cache) (year : Int) (gender_set : List String) :
    List RankRow :=
  gender_set.filterMap (rank_candidate_row db cache year)

/-- `rank_for_year` (lines 628-695), including the WOTY-cap demotion. -/
def rank_for_year (db : P4PDb) (cache : Cache) (year : Int) (gender_set : List String)
    (top_n : Nat) (woty_count : Option (List (String × Nat))) : List RankRow :=
  let results := sortByKeyDesc RankRow.score (rank_candidates db cache year gender_set)
  let results :=
    match woty_count with
    | none => results
    | some wc =>
      match results with
      | r1 :: r2 :: rest =>
        if lookupD wc r1.name 0 ≥ WOTY_MAX_TIMES then
          sortByKeyDesc RankRow.score ({ r1 with score := r2.score - 0.0001 } :: r2 :: rest)
        else r1 :: r2 :: rest
      | short => short
  results.take top_n

/-! ### p4p.py — Hall of Fame (lines 815-882) -/

def heldMajor (db : P4PDb) (name : String) : Bool :=
  MAJOR_ORGS.any (fun o => weightList.any (fun w =>
    (db.championships o w).any (fun r => r.champion = name)))

/-- The per-wrestler body of the `hof_eligible` loop (lines 818-858):
all gates, returning the (name, GOAT score) pair of an eligible name. -/
def hofRow (db : P4PDb) (cache : Cache) (induction_year : Int)
    (already_inducted : List String) : String × WRec → Option (String × ℚ) :=
  (fun p =>
        let name := p.1
        let w := p.2
        if name ∈ already_inducted then none
        else if ¬ (name ∈ db.ppv_wrestlers) then none
        else
          let total : Nat := w.wins + w.losses + w.draws
          if total = 0 then none
          else
            let mr := matchResultsOf cache name
            let last_fight := maxYearsD mr
            if last_fight > induction_year - HOF_RETIREMENT_YEARS then none
            else if w.wins < HOF_MIN_WINS then none
            else if ((w.wins : ℚ) / (total : ℚ)) < HOF_MIN_WIN_PCT then none
            else if HOF_REQUIRE_MAJOR ∧ ¬ heldMajor db name then none
            else
              let score := compute_score db cache name induction_year true
              if score < HOF_MIN_SCORE then none
              else some (name, score))

/-- `hof_eligible` (lines 815-861): names passing every gate, with GOAT
score, sorted by score descending. -/
def hof_eligible (db : P4PDb) (cache : Cache) (induction_year : Int)
    (already_inducted : List String) : List (String × ℚ) :=
  sortByKeyDesc Prod.snd
    (db.wrestlers.filterMap (hofRow db cache induction_year already_inducted))

/-- Python `range(lo, hi + 1)` over `Int`. -/
def intRange (lo hi : Int) : List Int :=
  (List.range (hi + 1 - lo).toNat).map (fun i => lo + (i : Int))

/-- One induction year of `compute_hof_classes` (lines 875-880). -/
def hofStep (db : P4PDb) (cache : Cache) (st : List (Int × List String) × List String)
    (yr : Int) : List (Int × List String) × List String :=
  let elig := hof_eligible db cache yr st.2
  let inductees := elig.take HOF_MAX_PER_YEAR
  if inductees.isEmpty then st
  else (st.1 ++ [(yr, inductees.map Prod.fst)], st.2 ++ inductees.map Prod.fst)

/-- `compute_hof_classes` (lines 864-882): induction classes in year
order plus the accumulated inducted set. -/
def compute_hof_classes (db : P4PDb) (cache : Cache) :
    List (Int × List String) × List String :=
  match cache.all_years with
  | [] => ([], [])
  | y :: ys =>
    let first_year := ys.foldl min y + HOF_RETIREMENT_YEARS + 1
    let last_year := ys.foldl max y
    (intRange first_year last_year).foldl (hofStep db cache) ([], [])

/-! ### Concrete data for witnesses and counterexamples -/

/-- A singles title match as the ingestion layer builds it. -/
def mkTitleMatch (f1 f2 : String) (w : Option String) (method notes date : String) : Match :=
  { fighter1 := f1, fighter2 := f2, fighter1_country := "us", fighter2_country := "mx",
    winner := w, is_draw := false, method := method, notes := notes,
    weight_class := "Heavyweight", event := "E", date := date }

def mkEvent (d : String) (ms : List Match) : Event := { name := "E", date := d, matches' := ms }

/-- The spec §8 scenario: A wins the WWF Heavyweight title, defends
twice (once by submission, once retained on a DQ loss), then loses it
to D by pinfall. -/
def scen : List Event :=
  [ mkEvent "January 1, 1970"
      [mkTitleMatch "A" "B" (some "A") "Pinfall" "WWF Heavyweight title" "January 1, 1970"],
    mkEvent "June 1, 1970"
      [mkTitleMatch "A" "C" (some "A") "Submission" "WWF Heavyweight title" "June 1, 1970"],
    mkEvent "December 1, 1970"
      [mkTitleMatch "D" "A" (some "D") "Disqualification" "WWF Heavyweight title" "December 1, 1970"],
    mkEvent "February 1, 1971"
      [mkTitleMatch "D" "A" (some "D") "Pinfall" "WWF Heavyweight title" "February 1, 1971"] ]

/-- The open (last) reign of the `scen` line after replay and vacancy
processing, before duration resolution. -/
def scenR2 : Reign :=
  { champion := "D", country := "us", date := "February 1, 1971", event := "E",
    defenses := 0, days := none, notes := "Def. A" }

/-- A closed two-reign line: A's reign then B's reign. -/
def exR1 : Reign :=
  { champion := "A", country := "us", date := "January 1, 1970", event := "E",
    defenses := 0, days := none, notes := "" }

def exR2 : Reign :=
  { champion := "B", country := "mx", date := "March 1, 1970", event := "E",
    defenses := 0, days := none, notes := "" }

/-- A vacancy naming A, who is not the line's current (open) champion. -/
def exVac : Vacancy :=
  { org := "wwf", weight := "heavyweight", champion := some "A",
    date := "June 1, 1970", message := some "Injured" }

/-- A DQ-won title match and a pinfall-won title match on the same line. -/
def dqMatch : Match :=
  mkTitleMatch "D" "A" (some "D") "Disqualification" "WWF Heavyweight title" "December 1, 1970"

def pinMatch : Match :=
  mkTitleMatch "D" "A" (some "D") "Pinfall" "WWF Heavyweight title" "February 1, 1971"

/-- A wrestler record created with zero matches (as
`parse_tournament_comments` does for a tournament winner who never
appears on a card). -/
def zdb : P4PDb :=
  { wrestlers := [("Zero", {})], ppv_wrestlers := [], championships := emptyChamp }

def zcache : Cache :=
  { match_results := [], champ_years := [], all_years := [1980],
    open_wins := [("Zero", [1980])] }

/-- A PPV wrestler with a single 1980 win who also won the 1980 Open:
below both career minimums, yet ranked. -/
def aceEntry : Entry :=
  { year := 1980, result := "Win", method := "Pinfall",
    m := mkTitleMatch "Ace" "Bob" (some "Ace") "Pinfall" "" "June 1, 1980" }

def pdb : P4PDb :=
  { wrestlers := [("Ace", { wins := 1 }), ("Bob", { losses := 1 })],
    ppv_wrestlers := ["Ace", "Bob"], championships := emptyChamp }

def pcache : Cache :=
  { match_results :=
      [("Ace", [aceEntry]),
       ("Bob", [{ aceEntry with result := "Loss" }])],
    champ_years := [], all_years := [1980], open_wins := [("Ace", [1980])] }

/-- A dominant retired champion who clears every Hall-of-Fame gate. -/
def heroReign : Reign :=
  { champion := "Hero", country := "us", date := "June 1, 1970", event := "E",
    defenses := 10, days := some 3650, notes := "" }

def heroChamp : Champ := updateLine emptyChamp "wwf" "heavyweight" [heroReign]

def heroEntry : Entry :=
  { year := 1970, result := "Win", method := "Pinfall",
    m := mkTitleMatch "Hero" "Job" (some "Hero") "Pinfall" "" "June 1, 1970" }

def hdb : P4PDb :=
  { wrestlers := [("Hero", { wins := 16, main_events := 16 })],
    ppv_wrestlers := ["Hero"], championships := heroChamp }

def hcache : Cache :=
  { match_results := [("Hero", List.replicate 16 heroEntry)],
    champ_years := [("Hero", [1970])], all_years := [1970, 1980],
    open_wins := [] }

/-- A two-row card whose final row is a singles match. -/
def rowSingles (f1 f2 : String) : Row :=
  { ncols := 9, match_type := "Singles", weight_class := "Heavyweight",
    fighter1 := f1, fighter1_country := "us", result := "def.",
    fighter2 := f2, fighter2_country := "mx", method := "Pinfall", notes := "" }

def rowTag : Row :=
  { ncols := 9, match_type := "Tag Team", weight_class := "Heavyweight",
    fighter1 := "T1", fighter1_country := "us", result := "def.",
    fighter2 := "T2", fighter2_country := "mx", method := "Pinfall", notes := "" }

/-! ### Lemmas -/

theorem calcLineAux_get? (mr : Option SimpleDate) (orig : List Reign) (k : Nat)
    (l : List Reign) (i : Nat) :
    (calcLineAux mr orig k l).get? i = (l.get? i).map (fun r => calcReign mr orig (k + i) r) := by
  induction l generalizing k i with
  | nil => simp [calcLineAux]
  | cons r rs ih =>
    cases i with
    | zero => simp [calcLineAux]
    | succ j =>
      simp only [calcLineAux, List.get?_cons_succ, ih (k + 1) j]
      have h : k + 1 + j = k + (j + 1) := by omega
      rw [h]

theorem applyVacancyRev_no_match (v : Vacancy) (l : List Reign)
    (h : ∀ r ∈ l, r.champion ≠ (v.champion).getD "") :
    applyVacancyRev v l = l := by
  induction l with
  | nil => rfl
  | cons r rs ih =>
    have hr : r.champion ≠ (v.champion).getD "" := h r (List.mem_cons_self r rs)
    simp only [applyVacancyRev, if_neg hr]
    rw [ih (fun x hx => h x (List.mem_cons_of_mem r hx))]

theorem applyVacancyRev_append_no_match (v : Vacancy) (a b : List Reign)
    (h : ∀ r ∈ a, r.champion ≠ (v.champion).getD "") :
    applyVacancyRev v (a ++ b) = a ++ applyVacancyRev v b := by
  induction a with
  | nil => rfl
  | cons r rs ih =>
    have hr : r.champion ≠ (v.champion).getD "" := h r (List.mem_cons_self r rs)
    simp only [List.cons_append, applyVacancyRev, if_neg hr, List.append_eq]
    rw [ih (fun x hx => h x (List.mem_cons_of_mem r hx))]

/-- C5: replaying the same ordered event log a second time yields exactly
the same reign sequences as replaying it once — the re-derivation clears
all championship state first, so its output is a pure function of the
event list, independent of the championship state it starts from. -/
theorem C5_replay_idempotent (c c' : Champ) (events : List Event) :
    reprocess (reprocess c events) events = reprocess c events ∧
    reprocess c events = reprocess c' events :=
  ⟨rfl, rfl⟩

/-- C2 (counterexample): in the spec's own §8 scenario the closed first
reign resolves to `days = 334` — the span from its start to its last
recorded defense (December 1, 1970) — not to the 396 days separating its
start from the next reign's start date, contradicting the claim that a
closed reign's `days` equals the distance to the next reign's start. -/
theorem C2_counterexample :
    (pipeline scen [] "wwf" "heavyweight").map (fun r => (r.champion, r.date, r.days)) =
      [("A", "January 1, 1970", some 334), ("D", "February 1, 1971", some 0)] ∧
    days_between "January 1, 1970" "February 1, 1971" = some 396 := by
  constructor
  · decide
  · decide

/-- C2 (amended): after duration resolution, a reign's `days` follows
`calcReign`: a value already set during replay (at each successful
defense, to the span from the reign's start to that defense date) or by
a vacancy is kept as-is; only a reign still unresolved gets the span to
the next reign's start (closed) or to the maximum event date (open). -/
theorem C2_duration_resolution (events : List Event) (vacs : List Vacancy)
    (org w : String) (i : Nat) (r : Reign)
    (hr : (processVacancies (reprocess emptyChamp events) vacs org w).get? i = some r) :
    (pipeline events vacs org w).get? i =
      some (calcReign (mostRecentDate events)
        (processVacancies (reprocess emptyChamp events) vacs org w) i r) := by
  show (calcLine (mostRecentDate events)
    (processVacancies (reprocess emptyChamp events) vacs org w)).get? i = _
  rw [calcLine, calcLineAux_get?, hr]
  simp

/-- C2 (witness): the open reign of the scenario line enters resolution
with `days = none` and resolves per `calcReign`. -/
theorem C2_duration_resolution_witness :
    (pipeline scen [] "wwf" "heavyweight").get? 1 =
      some (calcReign (mostRecentDate scen)
        (processVacancies (reprocess emptyChamp scen) [] "wwf" "heavyweight") 1 scenR2) :=
  C2_duration_resolution scen [] "wwf" "heavyweight" 1 scenR2 (by decide)

/-- C6: a drawn match (one that records no winner) leaves the entire
championship state untouched during replay — the reign sequences equal
those of the same log with the draw removed — and a row parsed as a
draw always has no winner. -/
theorem C6_draw_title_neutral (m : Match) (hd : m.winner = none) :
    (∀ c : Champ, processMatch c m = c) ∧
    (∀ (c : Champ) (pre post : List Match),
      replayMatches c (pre ++ m :: post) = replayMatches c (pre ++ post)) ∧
    (∀ (row : Row) (en ed : String), (rowToMatch row en ed).is_draw = true →
      (rowToMatch row en ed).winner = none) := by
  have hpm : ∀ c : Champ, processMatch c m = c := by
    intro c
    simp [processMatch, hd, winnerTruthy]
  refine ⟨hpm, ?_, ?_⟩
  · intro c pre post
    simp only [replayMatches, List.foldl_append, List.foldl_cons, hpm]
  · intro row en ed h
    simp only [rowToMatch, decide_eq_true_eq] at h ⊢
    rcases h with h | h | h <;> rw [h] <;> rw [if_neg (by decide)]

/-- C6 (witness): a concrete title-match draw between the champion and a
challenger does not alter the line. -/
theorem C6_draw_title_neutral_witness :
    processMatch (reprocess emptyChamp scen)
      (mkTitleMatch "D" "A" none "Draw" "WWF Heavyweight title" "March 1, 1971") =
      reprocess emptyChamp scen :=
  (C6_draw_title_neutral
    (mkTitleMatch "D" "A" none "Draw" "WWF Heavyweight title" "March 1, 1971") rfl).1
    (reprocess emptyChamp scen)

/-- C7 (counterexample): a Vacancy naming a champion different from the
line's current open reign's champion is not dropped: it mutates the most
recent reign of that champion.  Here A is not the open champion (B is),
yet A's closed reign gets `days` and the vacancy message set. -/
theorem C7_counterexample :
    exR2.champion ≠ (exVac.champion).getD "" ∧
    [exR1, exR2].getLast? = some exR2 ∧
    applyVacancy exVac [exR1, exR2] =
      [{ exR1 with days := some 151, vacancy_message := some "Injured" }, exR2] ∧
    applyVacancy exVac [exR1, exR2] ≠ [exR1, exR2] := by
  refine ⟨by decide, by decide, by decide, by decide⟩

/-- C7 (amended): a Vacancy whose vacating champion matches no reign of
the line leaves the line unchanged; otherwise it rewrites the most
recent reign of that champion — which need not be the open reign —
setting its `days` and vacancy message via `vacate`. -/
theorem C7_vacancy_rule (v : Vacancy) (line pre post : List Reign) (r : Reign) :
    ((∀ x ∈ line, x.champion ≠ (v.champion).getD "") → applyVacancy v line = line) ∧
    ((∀ x ∈ post, x.champion ≠ (v.champion).getD "") → r.champion = (v.champion).getD "" →
      applyVacancy v (pre ++ r :: post) = pre ++ vacate v r :: post) := by
  constructor
  · intro h
    rw [applyVacancy, applyVacancyRev_no_match v _ (fun x hx => h x (List.mem_reverse.mp hx)),
      List.reverse_reverse]
  · intro hpost hr
    rw [applyVacancy]
    have : (pre ++ r :: post).reverse = post.reverse ++ r :: pre.reverse := by
      simp
    rw [this, applyVacancyRev_append_no_match v _ _
      (fun x hx => hpost x (List.mem_reverse.mp hx))]
    simp only [applyVacancyRev, if_pos hr]
    simp

/-- C7 (witness): instantiating both halves of the vacancy rule. -/
theorem C7_vacancy_rule_witness :
    applyVacancy { exVac with champion := some "Nobody" } [exR1, exR2] = [exR1, exR2] ∧
    applyVacancy exVac ([] ++ exR1 :: [exR2]) = [] ++ vacate exVac exR1 :: [exR2] := by
  constructor
  · exact (C7_vacancy_rule { exVac with champion := some "Nobody" } [exR1, exR2] [] [] exR1).1
      (by decide)
  · exact (C7_vacancy_rule exVac [] [] [exR2] exR1).2 (by decide) (by decide)

theorem is_title_match_nodup (notes : String) : (is_title_match notes).2.Nodup := by
  rw [is_title_match]
  split
  · exact List.nodup_nil
  · exact List.Nodup.filter _ (by decide)

theorem foldl_updateLine_not_mem (m : Match) (w : String) (orgs : List String) (c : Champ)
    (org : String) (h : org ∉ orgs) :
    (orgs.foldl (fun c org => updateLine c org w (stepLine m (c org w))) c) org w = c org w := by
  induction orgs generalizing c with
  | nil => rfl
  | cons o os ih =>
    have hne : org ≠ o := fun he => h (he ▸ List.mem_cons_self o os)
    rw [List.foldl_cons, ih _ (fun hm => h (List.mem_cons_of_mem o hm))]
    simp [updateLine, hne]

theorem foldl_updateLine_mem (m : Match) (w : String) (orgs : List String) (c : Champ)
    (org : String) (h1 : org ∈ orgs) (h2 : orgs.Nodup) :
    (orgs.foldl (fun c org => updateLine c org w (stepLine m (c org w))) c) org w =
      stepLine m (c org w) := by
  induction orgs generalizing c with
  | nil => cases h1
  | cons o os ih =>
    rw [List.foldl_cons]
    rcases List.mem_cons.mp h1 with he | hm
    · subst he
      rw [foldl_updateLine_not_mem m w os _ org (List.Nodup.not_mem h2)]
      simp [updateLine]
    · have hne : org ≠ o := by
        intro he
        exact (List.Nodup.not_mem h2) (he ▸ hm)
      rw [ih _ hm (List.Nodup.of_cons h2)]
      simp [updateLine, hne]

/-- C1: during the chronological replay, a title-line update on a match
with a winner obeys the title-change rule: a win whose method cannot
change the title (DQ / Count Out classified) never starts a new reign —
the line keeps its length and the open reign's `defenses` is bumped by
1 — while a change-eligible win (Pinfall, Submission, Decision, or any
non-DQ/Count-Out method) by a wrestler who is not the line's current
champion always appends a fresh reign for the winner with `defenses = 0`;
and the replay applies exactly this line update to every org the title
match names. -/
theorem C1_title_change_rule (m : Match) (line : List Reign)
    (hw : winnerTruthy m.winner = true) :
    (can_change_title m.method = false →
      (stepLine m line).length = line.length ∧
      (∀ last, line.getLast? = some last →
        (stepLine m line).getLast? = some (bumpReign m last))) ∧
    (can_change_title m.method = true →
      (∀ last, line.getLast? = some last → last.champion ≠ winnerStr m.winner) →
      stepLine m line = line ++ [newReign m] ∧
      (newReign m).defenses = 0 ∧ (newReign m).champion = winnerStr m.winner) ∧
    (∀ (c : Champ) (org wt : String) (orgs : List String),
      is_title_match m.notes = (true, orgs) → org ∈ orgs →
      findWeight m.notes m.weight_class = some wt →
      processMatch c m org wt = stepLine m (c org wt)) := by
  refine ⟨?_, ?_, ?_⟩
  · intro hcc
    have hcc' := hcc
    simp only [can_change_title] at hcc'
    have hps : (containsSub (strLower m.method) "pinfall"
        || containsSub (strLower m.method) "submission") = false :=
      (Bool.or_eq_false_iff.mp hcc').1
    rcases hlast : line.getLast? with _ | last
    · rw [List.getLast?_eq_none_iff.mp hlast]
      constructor
      · simp [stepLine, hcc]
      · intro last h
        simp at h
    · have hline : line ≠ [] := by
        intro he
        rw [he] at hlast
        simp at hlast
      have hstep : stepLine m line = line.dropLast ++ [bumpReign m last] := by
        rw [stepLine, hlast]
        simp [hcc, hps]
      constructor
      · rw [hstep]
        simp only [List.length_append, List.length_dropLast, List.length_cons,
          List.length_nil]
        have : 0 < line.length := List.length_pos.mpr hline
        omega
      · intro last2 h2
        injection h2 with he
        subst he
        rw [hstep, List.getLast?_concat]
  · intro hcc hch
    refine ⟨?_, rfl, rfl⟩
    rcases hlast : line.getLast? with _ | last
    · rw [List.getLast?_eq_none_iff.mp hlast]
      simp [stepLine, hw, hcc]
    · have hne : last.champion ≠ winnerStr m.winner := hch last hlast
      rw [stepLine, hlast]
      simp [hw, hcc, hne]
  · intro c org wt orgs ht horg hwt
    have hnd : orgs.Nodup := by
      have h := is_title_match_nodup m.notes
      rw [ht] at h
      exact h
    rw [processMatch, ht]
    simp only [hw, hwt, Bool.not_true, Bool.or_self]
    exact foldl_updateLine_mem m wt orgs c org horg hnd

/-- C1 (witness): on a one-reign line, the DQ win bumps `defenses` and
keeps the champion; the pinfall win by the challenger appends a new
reign with `defenses = 0`. -/
theorem C1_title_change_rule_witness :
    (stepLine dqMatch [exR1]).getLast? = some (bumpReign dqMatch exR1) ∧
    stepLine pinMatch [exR1] = [exR1] ++ [newReign pinMatch] := by
  constructor
  · exact ((C1_title_change_rule dqMatch [exR1] (by decide)).1 (by decide)).2 exR1 (by decide)
  · refine ((C1_title_change_rule pinMatch [exR1] (by decide)).2.1 (by decide) ?_).1
    intro last h
    have : last = exR1 := by simpa using h.symm
    subst this
    decide

/-- C4: the opponent rating always lies in [5, 100]; an opponent with no
wrestler record rates exactly 5; and for known opponents the tiers are
evaluated in order — title history first, then the 0.70/5-bout,
0.50/3-bout and 0.40 win-rate tiers, else `max 5 (win_pct · 19)` — with
`win_pct` the cumulative wins over decided bouts up to the year. -/
theorem C4_opponent_rating (db : P4PDb) (cache : Cache) (opp : String) (fight_year : Int) :
    (5 ≤ opponent_rating db cache opp fight_year ∧
      opponent_rating db cache opp fight_year ≤ 100) ∧
    (db.wrestlers.lookup opp = none → opponent_rating db cache opp fight_year = 5) ∧
    (db.wrestlers.lookup opp ≠ none →
      opponent_rating db cache opp fight_year =
        (let cr := cumulative_record (matchResultsOf cache opp) fight_year
         let total : ℚ := (cr.1 : ℚ) + (cr.2.1 : ℚ)
         let win_pct : ℚ := if total ≠ 0 then (cr.1 : ℚ) / total else 0
         if (champYearsOf cache opp).any (fun y => y ≤ fight_year) then
           min (80 + win_pct * 20) 100
         else if win_pct ≥ 0.70 ∧ total ≥ 5 then 60 + win_pct * 19
         else if win_pct ≥ 0.50 ∧ total ≥ 3 then 40 + win_pct * 19
         else if win_pct ≥ 0.40 then 20 + win_pct * 19
         else max 5 (win_pct * 19))) := by
  rcases hl : db.wrestlers.lookup opp with _ | wr
  · refine ⟨?_, fun _ => ?_, fun h => absurd rfl h⟩
    · rw [opponent_rating, hl]
      norm_num
    · rw [opponent_rating, hl]
  · have hbody : opponent_rating db cache opp fight_year =
        (let cr := cumulative_record (matchResultsOf cache opp) fight_year
         let total : ℚ := (cr.1 : ℚ) + (cr.2.1 : ℚ)
         let win_pct : ℚ := if total ≠ 0 then (cr.1 : ℚ) / total else 0
         if (champYearsOf cache opp).any (fun y => y ≤ fight_year) then
           min (80 + win_pct * 20) 100
         else if win_pct ≥ 0.70 ∧ total ≥ 5 then 60 + win_pct * 19
         else if win_pct ≥ 0.50 ∧ total ≥ 3 then 40 + win_pct * 19
         else if win_pct ≥ 0.40 then 20 + win_pct * 19
         else max 5 (win_pct * 19)) := by
      rw [opponent_rating, hl]
    refine ⟨?_, fun h => Option.noConfusion h, fun _ => hbody⟩
    rw [hbody]
    have htot : (0 : ℚ) ≤ (((cumulative_record (matchResultsOf cache opp) fight_year).1 : ℚ) +
        ((cumulative_record (matchResultsOf cache opp) fight_year).2.1 : ℚ)) := by
      positivity
    have h0 : (0 : ℚ) ≤ (if (((cumulative_record (matchResultsOf cache opp) fight_year).1 : ℚ) +
        ((cumulative_record (matchResultsOf cache opp) fight_year).2.1 : ℚ)) ≠ 0 then
          ((cumulative_record (matchResultsOf cache opp) fight_year).1 : ℚ) /
            (((cumulative_record (matchResultsOf cache opp) fight_year).1 : ℚ) +
              ((cumulative_record (matchResultsOf cache opp) fight_year).2.1 : ℚ))
        else 0) := by
      split
      · exact div_nonneg (by positivity) htot
      · exact le_refl 0
    have h1 : (if (((cumulative_record (matchResultsOf cache opp) fight_year).1 : ℚ) +
        ((cumulative_record (matchResultsOf cache opp) fight_year).2.1 : ℚ)) ≠ 0 then
          ((cumulative_record (matchResultsOf cache opp) fight_year).1 : ℚ) /
            (((cumulative_record (matchResultsOf cache opp) fight_year).1 : ℚ) +
              ((cumulative_record (matchResultsOf cache opp) fight_year).2.1 : ℚ))
        else 0) ≤ 1 := by
      split
      · rename_i hne
        rw [div_le_one (lt_of_le_of_ne htot (Ne.symm hne))]
        exact le_add_of_nonneg_right (by positivity)
      · norm_num
    simp only []
    set wp := (if (((cumulative_record (matchResultsOf cache opp) fight_year).1 : ℚ) +
        ((cumulative_record (matchResultsOf cache opp) fight_year).2.1 : ℚ)) ≠ 0 then
          ((cumulative_record (matchResultsOf cache opp) fight_year).1 : ℚ) /
            (((cumulative_record (matchResultsOf cache opp) fight_year).1 : ℚ) +
              ((cumulative_record (matchResultsOf cache opp) fight_year).2.1 : ℚ))
        else 0) with hwp
    split_ifs with hc h70 h50 h40
    · exact ⟨le_min (by linarith) (by norm_num), min_le_right _ _⟩
    · constructor <;> linarith
    · constructor <;> linarith
    · constructor <;> linarith
    · exact ⟨le_max_left _ _, max_le (by norm_num) (by linarith)⟩

/-- C4 (witness): an unknown opponent rates 5, and a known one rates
inside [5, 100]. -/
theorem C4_opponent_rating_witness :
    opponent_rating zdb zcache "Nobody" 1980 = 5 ∧
    5 ≤ opponent_rating pdb pcache "Bob" 1980 ∧
    opponent_rating pdb pcache "Bob" 1980 ≤ 100 :=
  ⟨(C4_opponent_rating zdb zcache "Nobody" 1980).2.1 (by decide),
   (C4_opponent_rating pdb pcache "Bob" 1980).1.1,
   (C4_opponent_rating pdb pcache "Bob" 1980).1.2⟩

/-- C3 (counterexample): a wrestler with zero recorded matches who won
the 1980 Open Tournament does not appear in the 1980 ranking list — the
empty-match and PPV gates run before the tournament-winner bypass — and
their yearly score is 0, with no flat tournament bonus applied. -/
theorem C3_counterexample :
    ("Zero", ({} : WRec)) ∈ zdb.wrestlers ∧
    matchResultsOf zcache "Zero" = [] ∧
    (1980 : Int) ∈ openWinsOf zcache "Zero" ∧
    rank_for_year zdb zcache 1980 ["Zero"] 10 none = [] ∧
    compute_score zdb zcache "Zero" 1980 false = 0 := by
  refine ⟨by decide, by decide, by decide, by decide, by decide⟩

/-- C3 (amended): winning the year's Open Tournament bypasses only the
minimum-bouts and minimum-wins gates of the yearly ranking: a winner who
is a PPV wrestler with at least one match at or before the year, whose
last fight is within 2 years, and whose score is positive enters the
candidate list regardless of those two minimums; the Top-N list is the
score-sorted candidate list truncated to N. -/
theorem C3_open_winner_bypass (db : P4PDb) (cache : Cache) (year : Int)
    (gender_set : List String) (top_n : Nat) (name : String)
    (hg : name ∈ gender_set)
    (hppv : name ∈ db.ppv_wrestlers)
    (hm : ((matchResultsOf cache name).filter (fun e => e.year ≤ year)).isEmpty = false)
    (hl : ¬ (maxYearsD (matchResultsOf cache name) < year - 2))
    (hwon : year ∈ openWinsOf cache name)
    (hs : ¬ (compute_score db cache name year false ≤ 0)) :
    name ∈ (rank_candidates db cache year gender_set).map RankRow.name ∧
    rank_for_year db cache year gender_set top_n none =
      (sortByKeyDesc RankRow.score (rank_candidates db cache year gender_set)).take top_n := by
  constructor
  · have hrow : ∃ row, rank_candidate_row db cache year name = some row ∧ row.name = name := by
      simp only [rank_candidate_row]
      rw [if_neg (not_not_intro hppv)]
      rw [if_neg (by simp [hm])]
      rw [if_neg hl]
      rw [if_neg (fun hc => hc.1 hwon)]
      rw [if_neg (fun hc => hc.1 hwon)]
      rw [if_neg hs]
      exact ⟨_, rfl, rfl⟩
    rcases hrow with ⟨row, hr, hn⟩
    exact hn ▸ List.mem_map.mpr ⟨row, List.mem_filterMap.mpr ⟨name, hg, hr⟩, rfl⟩
  · rfl

/-- C3 (witness): Ace, with a single career bout (below the 3-bout and
2-win minimums) but the 1980 Open win, appears among the candidates. -/
theorem C3_open_winner_bypass_witness :
    ("Ace" ∈ (rank_candidates pdb pcache 1980 ["Ace"]).map RankRow.name) ∧
    ((matchResultsOf pcache "Ace").filter (fun e => e.year ≤ 1980)).length < P4P_MIN_BOUTS :=
  ⟨(C3_open_winner_bypass pdb pcache 1980 ["Ace"] 10 "Ace" (by decide) (by decide) (by decide)
      (by decide) (by decide) (by decide)).1,
   by decide⟩

theorem mem_insertByKey {α : Type} (key : α → ℚ) (x y : α) (l : List α) :
    y ∈ insertByKey key x l ↔ y = x ∨ y ∈ l := by
  induction l with
  | nil => simp [insertByKey]
  | cons z zs ih =>
    rw [insertByKey]
    split
    · simp only [List.mem_cons]
    · simp only [List.mem_cons, ih]
      tauto

theorem mem_sortByKeyDesc {α : Type} (key : α → ℚ) (y : α) (l : List α) :
    y ∈ sortByKeyDesc key l ↔ y ∈ l := by
  induction l with
  | nil => simp [sortByKeyDesc]
  | cons z zs ih =>
    show y ∈ insertByKey key z (sortByKeyDesc key zs) ↔ _
    rw [mem_insertByKey]
    simp only [List.mem_cons, ih]

theorem pairwise_insertByKey {α : Type} (key : α → ℚ) (x : α) (l : List α)
    (h : l.Pairwise (fun a b => key b ≤ key a)) :
    (insertByKey key x l).Pairwise (fun a b => key b ≤ key a) := by
  induction l with
  | nil => simp [insertByKey]
  | cons z zs ih =>
    rw [insertByKey]
    split
    · rename_i hle
      refine List.Pairwise.cons ?_ h
      intro b hb
      rcases List.mem_cons.mp hb with rfl | hb2
      · exact hle
      · exact le_trans (List.rel_of_pairwise_cons h hb2) hle
    · rename_i hnle
      have hzx : key x ≤ key z := le_of_not_le hnle
      refine List.Pairwise.cons ?_ (ih (List.Pairwise.of_cons h))
      intro b hb
      rcases (mem_insertByKey key x b zs).mp hb with rfl | hb2
      · exact hzx
      · exact List.rel_of_pairwise_cons h hb2

theorem pairwise_sortByKeyDesc {α : Type} (key : α → ℚ) (l : List α) :
    (sortByKeyDesc key l).Pairwise (fun a b => key b ≤ key a) := by
  induction l with
  | nil => exact List.Pairwise.nil
  | cons z zs ih => exact pairwise_insertByKey key z _ ih

theorem hofRow_spec (db : P4PDb) (cache : Cache) (y : Int) (already : List String)
    (p : String × WRec) (q : String × ℚ) (h : hofRow db cache y already p = some q) :
    q.1 = p.1 ∧ ¬ p.1 ∈ already := by
  simp only [hofRow] at h
  split_ifs at h with h1 h2 h3 h4 h5 h6 h7
  injection h with he
  rw [← he]
  exact ⟨rfl, h1⟩

theorem hof_eligible_not_inducted (db : P4PDb) (cache : Cache) (y : Int)
    (already : List String) (n : String)
    (h : n ∈ (hof_eligible db cache y already).map Prod.fst) : ¬ n ∈ already := by
  rcases List.mem_map.mp h with ⟨q, hq, hqn⟩
  rw [hof_eligible] at hq
  rcases List.mem_filterMap.mp ((mem_sortByKeyDesc _ _ _).mp hq) with ⟨p, _, hrow⟩
  have hs := hofRow_spec db cache y already p q hrow
  rw [← hqn, hs.1]
  exact hs.2

theorem hofFold_invariant (db : P4PDb) (cache : Cache) (years : List Int)
    (st : List (Int × List String) × List String)
    (h1 : ∀ p ∈ st.1, p.2.length ≤ HOF_MAX_PER_YEAR)
    (h2 : st.1.Pairwise (fun a b => ∀ n ∈ a.2, ¬ n ∈ b.2))
    (h3 : ∀ p ∈ st.1, ∀ n ∈ p.2, n ∈ st.2)
    (h4 : ∀ p ∈ st.1, ∃ prior,
      p.2 = ((hof_eligible db cache p.1 prior).take HOF_MAX_PER_YEAR).map Prod.fst) :
    (∀ p ∈ (years.foldl (hofStep db cache) st).1, p.2.length ≤ HOF_MAX_PER_YEAR) ∧
    ((years.foldl (hofStep db cache) st).1.Pairwise (fun a b => ∀ n ∈ a.2, ¬ n ∈ b.2)) ∧
    (∀ p ∈ (years.foldl (hofStep db cache) st).1, ∃ prior,
      p.2 = ((hof_eligible db cache p.1 prior).take HOF_MAX_PER_YEAR).map Prod.fst) := by
  induction years generalizing st with
  | nil => exact ⟨h1, h2, h4⟩
  | cons y ys ih =>
    rw [List.foldl_cons]
    rcases hstep : hofStep db cache st y with ⟨cl, ind⟩
    rw [hofStep] at hstep
    by_cases he : ((hof_eligible db cache y st.2).take HOF_MAX_PER_YEAR).isEmpty = true
    · rw [if_pos he] at hstep
      rw [← hstep]
      exact ih st h1 h2 h3 h4
    · rw [if_neg he] at hstep
      injection hstep with hcl hind
      subst hcl
      subst hind
      have hclmem : ∀ n ∈ ((hof_eligible db cache y st.2).take HOF_MAX_PER_YEAR).map Prod.fst,
          n ∈ (hof_eligible db cache y st.2).map Prod.fst := by
        intro n hn
        rcases List.mem_map.mp hn with ⟨q, hq, hqn⟩
        exact List.mem_map.mpr ⟨q, List.mem_of_mem_take hq, hqn⟩
      apply ih
      · intro p hp
        rcases List.mem_append.mp hp with hold | hnew
        · exact h1 p hold
        · rw [List.mem_singleton.mp hnew]
          rw [List.length_map]
          exact List.length_take_le _ _
      · rw [List.pairwise_append]
        refine ⟨h2, List.pairwise_singleton _ _, ?_⟩
        intro a ha b hb n hna
        rw [List.mem_singleton.mp hb]
        intro hncl
        exact hof_eligible_not_inducted db cache y st.2 n (hclmem n hncl) (h3 a ha n hna)
      · intro p hp n hn
        rcases List.mem_append.mp hp with hold | hnew
        · exact List.mem_append_left _ (h3 p hold n hn)
        · rw [List.mem_singleton.mp hnew] at hn
          exact List.mem_append_right _ hn
      · intro p hp
        rcases List.mem_append.mp hp with hold | hnew
        · exact h4 p hold
        · rw [List.mem_singleton.mp hnew]
          exact ⟨st.2, rfl⟩

/-- C8: in the Hall-of-Fame induction sequence, each class holds at most
`HOF_MAX_PER_YEAR` names, no name appears in more than one year's class
(inducted names are excluded from eligibility forever), every class is
the top `HOF_MAX_PER_YEAR` of that year's eligibility list, the
eligibility list is sorted by GOAT score descending, and eligibility
always excludes previously inducted names. -/
theorem C8_hof_invariants (db : P4PDb) (cache : Cache) :
    (∀ p ∈ (compute_hof_classes db cache).1, p.2.length ≤ HOF_MAX_PER_YEAR) ∧
    ((compute_hof_classes db cache).1.Pairwise (fun a b => ∀ n ∈ a.2, ¬ n ∈ b.2)) ∧
    (∀ p ∈ (compute_hof_classes db cache).1, ∃ prior,
      p.2 = ((hof_eligible db cache p.1 prior).take HOF_MAX_PER_YEAR).map Prod.fst) ∧
    (∀ y prior, (hof_eligible db cache y prior).Pairwise (fun a b => b.2 ≤ a.2)) ∧
    (∀ y prior n, n ∈ (hof_eligible db cache y prior).map Prod.fst → ¬ n ∈ prior) := by
  have hmain :
      (∀ p ∈ (compute_hof_classes db cache).1, p.2.length ≤ HOF_MAX_PER_YEAR) ∧
      ((compute_hof_classes db cache).1.Pairwise (fun a b => ∀ n ∈ a.2, ¬ n ∈ b.2)) ∧
      (∀ p ∈ (compute_hof_classes db cache).1, ∃ prior,
        p.2 = ((hof_eligible db cache p.1 prior).take HOF_MAX_PER_YEAR).map Prod.fst) := by
    rw [compute_hof_classes]
    rcases cache.all_years with _ | ⟨y, ys⟩
    · exact ⟨fun p hp => absurd hp (List.not_mem_nil p),
        List.Pairwise.nil, fun p hp => absurd hp (List.not_mem_nil p)⟩
    · exact hofFold_invariant db cache _ ([], [])
        (fun p hp => absurd hp (List.not_mem_nil p)) List.Pairwise.nil
        (fun p hp => absurd hp (List.not_mem_nil p))
        (fun p hp => absurd hp (List.not_mem_nil p))
  refine ⟨hmain.1, hmain.2.1, hmain.2.2, ?_, ?_⟩
  · intro y prior
    exact pairwise_sortByKeyDesc Prod.snd _
  · intro y prior n hn
    exact hof_eligible_not_inducted db cache y prior n hn

set_option maxRecDepth 400000 in
/-- C8 (witness): the concrete induction run inducts Hero once, in a
class of size 1 that equals the top of that year's eligibility list. -/
theorem C8_hof_invariants_witness :
    (((1976 : Int), ["Hero"]).2.length ≤ HOF_MAX_PER_YEAR) ∧
    (∃ prior, ((1976 : Int), ["Hero"]).2 =
      ((hof_eligible hdb hcache 1976 prior).take HOF_MAX_PER_YEAR).map Prod.fst) :=
  ⟨(C8_hof_invariants hdb hcache).1 (1976, ["Hero"]) (by decide),
   (C8_hof_invariants hdb hcache).2.2.1 (1976, ["Hero"]) (by decide)⟩

theorem days_between_nonneg (s1 s2 : String) (d : Int) :
    days_between s1 s2 = some d → 0 ≤ d := by
  rw [days_between]
  rcases parse_date s1 with _ | d1 <;> rcases parse_date s2 with _ | d2 <;> intro h
  · exact Option.noConfusion h
  · exact Option.noConfusion h
  · exact Option.noConfusion h
  · injection h with he
    rw [← he]
    exact Int.natCast_nonneg _

theorem stepLine_ok (dates : List String) (m : Match) (line : List Reign)
    (hm : m.date ∈ dates) (hl : ∀ r ∈ line, ReignOk dates r) :
    ∀ r ∈ stepLine m line, ReignOk dates r := by
  intro r hr
  rw [stepLine] at hr
  split at hr
  · split at hr
    · rw [List.mem_singleton.mp hr]
      exact ⟨hm, fun d hd => Option.noConfusion hd⟩
    · exact hl r hr
  · rename_i last hlast
    split at hr
    · rcases List.mem_append.mp hr with h1 | h2
      · exact hl r h1
      · rw [List.mem_singleton.mp h2]
        exact ⟨hm, fun d hd => Option.noConfusion hd⟩
    · simp only [] at hr
      split at hr
      · exact hl r hr
      · rcases List.mem_append.mp hr with h1 | h2
        · exact hl r (List.mem_of_mem_dropLast h1)
        · have hlm : last ∈ line := by
            rcases List.getLast?_eq_some_iff.mp hlast with ⟨ys, hys⟩
            rw [hys]
            exact List.mem_append_right ys (List.mem_singleton.mpr rfl)
          have hok := hl last hlm
          rw [List.mem_singleton.mp h2, bumpReign]
          refine ⟨hok.1, ?_⟩
          intro d hd
          simp only at hd
          split at hd
          · exact days_between_nonneg _ _ d hd
          · exact hok.2 d hd

theorem processMatch_ok (dates : List String) (c : Champ) (m : Match)
    (hm : m.date ∈ dates) (hc : ChampOk dates c) : ChampOk dates (processMatch c m) := by
  rw [processMatch]
  split
  · exact hc
  · split
    · exact hc
    · rename_i wt hwt
      have hfold : ∀ (orgs : List String) (c : Champ), ChampOk dates c →
          ChampOk dates
            (orgs.foldl (fun c org => updateLine c org wt (stepLine m (c org wt))) c) := by
        intro orgs
        induction orgs with
        | nil => exact fun c hc => hc
        | cons o os ih =>
          intro c hc
          rw [List.foldl_cons]
          apply ih
          intro org2 w2 r hr
          rw [updateLine] at hr
          split at hr
          · exact stepLine_ok dates m (c o wt) hm (fun x hx => hc o wt x hx) r hr
          · exact hc org2 w2 r hr
      exact hfold _ c hc

theorem replayMatches_ok (dates : List String) (ms : List Match) :
    ∀ (c : Champ), (∀ m ∈ ms, m.date ∈ dates) → ChampOk dates c →
      ChampOk dates (replayMatches c ms) := by
  induction ms with
  | nil => exact fun c _ hc => hc
  | cons m ms ih =>
    intro c hms hc
    rw [replayMatches, List.foldl_cons]
    exact ih _ (fun x hx => hms x (List.mem_cons_of_mem m hx))
      (processMatch_ok dates c m (hms m (List.mem_cons_self m ms)) hc)

theorem reprocess_ok (events : List Event)
    (hwf : ∀ e ∈ events, ∀ m ∈ e.matches', m.date = e.date) (c0 : Champ) :
    ChampOk (events.map Event.date) (reprocess c0 events) := by
  rw [reprocess]
  have hgen : ∀ (evs : List Event) (c : Champ), (∀ e ∈ evs, e ∈ events) →
      ChampOk (events.map Event.date) c →
      ChampOk (events.map Event.date)
        (evs.foldl (fun c e => replayMatches c e.matches') c) := by
    intro evs
    induction evs with
    | nil => exact fun c _ hc => hc
    | cons e es ih =>
      intro c hsub hc
      rw [List.foldl_cons]
      apply ih _ (fun x hx => hsub x (List.mem_cons_of_mem e hx))
      apply replayMatches_ok _ _ c _ hc
      intro m hmm
      rw [hwf e (hsub e (List.mem_cons_self e es)) m hmm]
      exact List.mem_map.mpr ⟨e, hsub e (List.mem_cons_self e es), rfl⟩
  exact hgen events emptyChamp (fun e he => he)
    (fun org w r hr => absurd hr (List.not_mem_nil r))

theorem applyVacancyRev_cases (v : Vacancy) (l : List Reign) (r : Reign)
    (h : r ∈ applyVacancyRev v l) : r ∈ l ∨ ∃ r0 ∈ l, r = vacate v r0 := by
  induction l with
  | nil => exact absurd h (List.not_mem_nil r)
  | cons z zs ih =>
    rw [applyVacancyRev] at h
    split at h
    · rcases List.mem_cons.mp h with he | hz
      · exact Or.inr ⟨z, List.mem_cons_self z zs, he⟩
      · exact Or.inl (List.mem_cons_of_mem z hz)
    · rcases List.mem_cons.mp h with he | hz
      · exact Or.inl (he ▸ List.mem_cons_self z zs)
      · rcases ih hz with h1 | ⟨r0, hr0, he2⟩
        · exact Or.inl (List.mem_cons_of_mem z h1)
        · exact Or.inr ⟨r0, List.mem_cons_of_mem z hr0, he2⟩

theorem vacate_ok (dates : List String) (v : Vacancy) (r0 : Reign)
    (h : ReignOk dates r0) : ReignOk dates (vacate v r0) := by
  refine ⟨h.1, ?_⟩
  intro d hd
  rw [vacate] at hd
  simp only at hd
  split at hd
  · exact days_between_nonneg _ _ d hd
  · exact h.2 d hd

theorem processVacancies_ok (dates : List String) (vs : List Vacancy) :
    ∀ (c : Champ), ChampOk dates c → ChampOk dates (processVacancies c vs) := by
  induction vs with
  | nil => exact fun c hc => hc
  | cons v vs ih =>
    intro c hc
    rw [processVacancies, List.foldl_cons]
    apply ih
    intro org2 w2 r hr
    rw [updateLine] at hr
    split at hr
    · rw [applyVacancy] at hr
      have hr2 := List.mem_reverse.mp hr
      rcases applyVacancyRev_cases v _ r hr2 with h1 | ⟨r0, hr0, he⟩
      · exact hc v.org v.weight r (List.mem_reverse.mp h1)
      · exact he ▸ vacate_ok dates v r0 (hc v.org v.weight r0 (List.mem_reverse.mp hr0))
    · exact hc org2 w2 r hr

theorem parse_date_empty : parse_date "" = none := rfl

theorem foldl_mrStep_ge (events : List Event) :
    ∀ acc : Option SimpleDate,
      (∀ a, acc = some a →
        ∃ mr, events.foldl mrStep acc = some mr ∧ toDays a ≤ toDays mr) ∧
      (∀ e ∈ events, ∀ d, parse_date e.date = some d →
        ∃ mr, events.foldl mrStep acc = some mr ∧ toDays d ≤ toDays mr) := by
  induction events with
  | nil =>
    intro acc
    refine ⟨fun a ha => ⟨a, ha, le_refl _⟩, fun e he => absurd he (List.not_mem_nil e)⟩
  | cons e es ih =>
    intro acc
    have hstep_acc : ∀ a, acc = some a →
        ∃ a2, mrStep acc e = some a2 ∧ toDays a ≤ toDays a2 := by
      intro a ha
      rw [ha, mrStep]
      split
      · exact ⟨a, rfl, le_refl _⟩
      · rcases hp : parse_date e.date with _ | d2
        · exact ⟨a, rfl, le_refl _⟩
        · by_cases hlt : dateLt a d2 = true
          · refine ⟨d2, by simp [hlt], ?_⟩
            exact Nat.le_of_lt (of_decide_eq_true hlt)
          · exact ⟨a, by simp [hlt], le_refl _⟩
    constructor
    · intro a ha
      rcases hstep_acc a ha with ⟨a2, h2, hle⟩
      rcases (ih (mrStep acc e)).1 a2 h2 with ⟨mr, hmr, hle2⟩
      exact ⟨mr, by rw [List.foldl_cons]; exact hmr, le_trans hle hle2⟩
    · intro e2 he2 d hd
      rcases List.mem_cons.mp he2 with he | hmem
      · subst he
        have hne : e2.date ≠ "" := by
          intro h0
          rw [h0, parse_date_empty] at hd
          exact Option.noConfusion hd
        have hstep : ∃ a2, mrStep acc e2 = some a2 ∧ toDays d ≤ toDays a2 := by
          rw [mrStep, if_neg hne, hd]
          rcases acc with _ | a
          · exact ⟨d, rfl, le_refl _⟩
          · by_cases hlt : dateLt a d = true
            · exact ⟨d, by simp [hlt], le_refl _⟩
            · refine ⟨a, by simp [hlt], ?_⟩
              exact Nat.le_of_not_lt (fun hc => hlt (decide_eq_true hc))
        rcases hstep with ⟨a2, h2, hle⟩
        rcases (ih (mrStep acc e2)).1 a2 h2 with ⟨mr, hmr, hle2⟩
        exact ⟨mr, by rw [List.foldl_cons]; exact hmr, le_trans hle hle2⟩
      · rcases (ih (mrStep acc e)).2 e2 hmem d hd with ⟨mr, hmr, hle⟩
        exact ⟨mr, by rw [List.foldl_cons]; exact hmr, hle⟩

theorem calcLineAux_mem (mr : Option SimpleDate) (orig : List Reign) :
    ∀ (k : Nat) (l : List Reign) (x : Reign), x ∈ calcLineAux mr orig k l →
      ∃ i r0, r0 ∈ l ∧ x = calcReign mr orig i r0 := by
  intro k l
  induction l generalizing k with
  | nil => exact fun x hx => absurd hx (List.not_mem_nil x)
  | cons r rs ih =>
    intro x hx
    rw [calcLineAux] at hx
    rcases List.mem_cons.mp hx with he | hx2
    · exact ⟨k, r, List.mem_cons_self r rs, he⟩
    · rcases ih (k + 1) x hx2 with ⟨i, r0, hmem, he⟩
      exact ⟨i, r0, List.mem_cons_of_mem r hmem, he⟩

theorem openDays_eq_some (mr : Option SimpleDate) (date : String) (d : Int)
    (h : openDays mr date = some d) :
    ∃ m0 s, mr = some m0 ∧ parse_date date = some s ∧
      d = (toDays m0 : Int) - (toDays s : Int) := by
  rcases mr with _ | m0
  · exact Option.noConfusion h
  · simp only [openDays] at h
    split at h
    · exact Option.noConfusion h
    · split at h
      · exact Option.noConfusion h
      · rename_i s hs
        injection h with he
        exact ⟨m0, s, rfl, hs, he.symm⟩

/-- C9: durations are never negative: `days_between` yields an absolute
(non-negative) day count, and after the full pipeline every reign whose
`days` is resolved — including the open reign measured against the
maximum event date, which is never earlier than the reign's start —
carries a non-negative value.  (Each match's date is the date of its
event, as `parse_match_card` constructs it.) -/
theorem C9_nonneg_days (events : List Event) (vacs : List Vacancy)
    (hwf : ∀ e ∈ events, ∀ m ∈ e.matches', m.date = e.date) :
    (∀ s1 s2 d, days_between s1 s2 = some d → 0 ≤ d) ∧
    (∀ org w r, r ∈ pipeline events vacs org w → ∀ d, r.days = some d → 0 ≤ d) := by
  refine ⟨fun s1 s2 d => days_between_nonneg s1 s2 d, ?_⟩
  intro org w r hr d hd
  have hmid : ChampOk (events.map Event.date)
      (processVacancies (reprocess emptyChamp events) vacs) :=
    processVacancies_ok _ vacs _ (reprocess_ok events hwf emptyChamp)
  have hr2 : r ∈ calcLineAux (mostRecentDate events)
      (processVacancies (reprocess emptyChamp events) vacs org w) 0
      (processVacancies (reprocess emptyChamp events) vacs org w) := hr
  rcases calcLineAux_mem _ _ 0 _ r hr2 with ⟨i, r0, hmem, he⟩
  have hok := hmid org w r0 hmem
  rw [he, calcReign] at hd
  split at hd
  · exact hok.2 d hd
  · split at hd
    · simp only at hd
      exact days_between_nonneg _ _ d hd
    · simp only at hd
      rcases openDays_eq_some _ _ d hd with ⟨m0, s, hmr, hp, hde⟩
      rcases List.mem_map.mp hok.1 with ⟨e, hemem, hedate⟩
      have hpe : parse_date e.date = some s := by rw [hedate]; exact hp
      rcases (foldl_mrStep_ge events none).2 e hemem s hpe with ⟨mr2, hmr2, hle⟩
      have h12 : some m0 = some mr2 := by
        rw [← hmr, mostRecentDate]
        exact hmr2
      injection h12 with hm0
      rw [hde, hm0]
      have hcast : (toDays s : Int) ≤ (toDays mr2 : Int) := by exact_mod_cast hle
      omega

/-- C9 (witness): a concrete run of the pipeline with a resolved closed
reign and a resolved open reign, both non-negative. -/
theorem C9_nonneg_days_witness :
    0 ≤ (334 : Int) ∧ days_between "January 1, 1970" "December 1, 1970" = some 334 :=
  ⟨(C9_nonneg_days scen [] (by decide)).1 "January 1, 1970" "December 1, 1970" 334 (by decide),
   by decide⟩

theorem upd_apply (s : WState) (x n : String) (f : WRec → WRec) :
    upd s x f n = if n = x then f (s n) else s n := rfl

theorem upd_main_events_pres (t : WState) (x : String) (f : WRec → WRec) (n : String)
    (hf : ∀ w, (f w).main_events = w.main_events) :
    (upd t x f n).main_events = (t n).main_events := by
  rw [upd_apply]
  split
  · exact hf (t n)
  · rfl

theorem recCountry_main_events (m : Match) (s : WState) (n : String) :
    (recCountry m s n).main_events = (s n).main_events := by
  rw [recCountry]
  exact (upd_main_events_pres _ _ _ n (by intro w; rfl)).trans
    (upd_main_events_pres _ _ _ n (by intro w; rfl))

theorem recResult_main_events (m : Match) (s : WState) (n : String) :
    (recResult m s n).main_events = (s n).main_events := by
  simp only [recResult]
  split_ifs <;>
    first
    | rfl
    | exact (upd_main_events_pres _ _ _ n (by intro w; rfl)).trans
        (upd_main_events_pres _ _ _ n (by intro w; rfl))
    | exact (upd_main_events_pres _ _ _ n (by intro w; rfl)).trans
        ((upd_main_events_pres _ _ _ n (by intro w; rfl)).trans
          (upd_main_events_pres _ _ _ n (by intro w; rfl)))
    | exact (upd_main_events_pres _ _ _ n (by intro w; rfl)).trans
        ((upd_main_events_pres _ _ _ n (by intro w; rfl)).trans
          ((upd_main_events_pres _ _ _ n (by intro w; rfl)).trans
            (upd_main_events_pres _ _ _ n (by intro w; rfl))))
    | exact (upd_main_events_pres _ _ _ n (by intro w; rfl)).trans
        ((upd_main_events_pres _ _ _ n (by intro w; rfl)).trans
          ((upd_main_events_pres _ _ _ n (by intro w; rfl)).trans
            ((upd_main_events_pres _ _ _ n (by intro w; rfl)).trans
              (upd_main_events_pres _ _ _ n (by intro w; rfl)))))

theorem recMainEvent_false (m : Match) (s : WState) : recMainEvent m false s = s := rfl

theorem recMainEvent_true_main_events (m : Match) (s : WState) (n : String)
    (hne : m.fighter1 ≠ m.fighter2) :
    (recMainEvent m true s n).main_events =
      (s n).main_events + (if n = m.fighter1 ∨ n = m.fighter2 then 1 else 0) := by
  have base : ((upd (upd s m.fighter1
        (fun w => { w with main_events := w.main_events + 1 })) m.fighter2
        (fun w => { w with main_events := w.main_events + 1 })) n).main_events
      = (s n).main_events + (if n = m.fighter1 ∨ n = m.fighter2 then 1 else 0) := by
    simp only [upd_apply]
    split_ifs <;> simp_all
  rw [recMainEvent, if_pos rfl]
  simp only []
  by_cases hwm : containsSub (strLower m.event) "wrestlemania" = true
  · rw [if_pos hwm]
    exact (upd_main_events_pres _ _ _ n (by intro w; rfl)).trans
      ((upd_main_events_pres _ _ _ n (by intro w; rfl)).trans base)
  · rw [if_neg hwm]
    by_cases hlm : containsSub (strLower m.event) "libremania" = true
    · rw [if_pos hlm]
      exact (upd_main_events_pres _ _ _ n (by intro w; rfl)).trans
        ((upd_main_events_pres _ _ _ n (by intro w; rfl)).trans base)
    · rw [if_neg hlm]
      exact base

theorem record_match_main_events (m : Match) (b : Bool) (s : WState) (n : String)
    (hne : m.fighter1 ≠ m.fighter2) :
    (record_match m b s n).main_events = (s n).main_events +
      (if b = true ∧ (n = m.fighter1 ∨ n = m.fighter2) then 1 else 0) := by
  rw [record_match, recResult_main_events]
  cases b
  · rw [recMainEvent_false, recCountry_main_events]
    simp
  · rw [recMainEvent_true_main_events m _ n hne, recCountry_main_events]
    simp

theorem record_match_false_main_events (m : Match) (s : WState) (n : String) :
    (record_match m false s n).main_events = (s n).main_events := by
  rw [record_match, recResult_main_events, recMainEvent_false, recCountry_main_events]

theorem foldl_cardStep_ne (en ed : String) (L : Nat) (ps : List (Nat × Row)) :
    ∀ (s : WState) (n : String), (∀ p ∈ ps, p.1 ≠ L) →
      ((ps.foldl (cardStep en ed L) s) n).main_events = (s n).main_events := by
  induction ps with
  | nil => intro s n _; rfl
  | cons p ps ih =>
    intro s n hne
    rw [List.foldl_cons, ih _ n (fun q hq => hne q (List.mem_cons_of_mem p hq))]
    rw [cardStep]
    split
    · rfl
    · split
      · rfl
      · have hb : (decide (p.1 = L)) = false :=
          decide_eq_false (hne p (List.mem_cons_self p ps))
        rw [hb, record_match_false_main_events]

/-- C10: main-event credit goes to exactly the two participants of the
card's final row when that row is a singles match — each gets
`main_events + 1`, everyone else is untouched — and when the final row
is anything else (non-singles or malformed), no wrestler receives
main-event credit from this card. -/
theorem C10_main_event_credit (rows : List Row) (en ed : String) (s : WState)
    (lastRow : Row) (hlast : rows.getLast? = some lastRow) :
    ((7 ≤ lastRow.ncols ∧ strLower lastRow.match_type = "singles" ∧
        lastRow.fighter1 ≠ lastRow.fighter2) →
      (processCard rows en ed s lastRow.fighter1).main_events
          = (s lastRow.fighter1).main_events + 1 ∧
      (processCard rows en ed s lastRow.fighter2).main_events
          = (s lastRow.fighter2).main_events + 1 ∧
      (∀ n, n ≠ lastRow.fighter1 → n ≠ lastRow.fighter2 →
        (processCard rows en ed s n).main_events = (s n).main_events)) ∧
    ((lastRow.ncols < 7 ∨ ¬ strLower lastRow.match_type = "singles") →
      ∀ n, (processCard rows en ed s n).main_events = (s n).main_events) := by
  rcases List.getLast?_eq_some_iff.mp hlast with ⟨l, rfl⟩
  have hL : (l ++ [lastRow]).length - 1 = l.length := by simp
  have henum : (l ++ [lastRow]).enum = l.enum ++ [(l.length, lastRow)] := by
    show List.enumFrom 0 (l ++ [lastRow]) = _
    rw [List.enumFrom_append]
    simp only [Nat.zero_add, List.enumFrom]
    rfl
  have hsplit : ∀ t : WState, processCard (l ++ [lastRow]) en ed t =
      cardStep en ed l.length (l.enum.foldl (cardStep en ed l.length) t)
        (l.length, lastRow) := by
    intro t
    rw [processCard, hL, henum, List.foldl_append]
    rfl
  have hpre : ∀ (t : WState) (n : String),
      ((l.enum.foldl (cardStep en ed l.length) t) n).main_events = (t n).main_events := by
    intro t n
    apply foldl_cardStep_ne
    rintro ⟨i, x⟩ hp he
    have h2 := List.mem_enumFrom hp
    omega
  constructor
  · rintro ⟨hn, hsing, hne⟩
    have hstep : ∀ n, (processCard (l ++ [lastRow]) en ed s n).main_events =
        (s n).main_events +
          (if n = lastRow.fighter1 ∨ n = lastRow.fighter2 then 1 else 0) := by
      intro n
      rw [hsplit, cardStep]
      rw [if_neg (by exact Nat.not_lt.mpr hn)]
      rw [if_neg (by simp [hsing])]
      have hb : (decide (((l.length, lastRow) : Nat × Row).1 = l.length)) = true :=
        decide_eq_true rfl
      rw [hb, record_match_main_events _ _ _ _ hne, hpre]
      simp [rowToMatch]
    refine ⟨?_, ?_, ?_⟩
    · rw [hstep]
      simp
    · rw [hstep]
      simp
    · intro n h1 h2
      rw [hstep]
      simp [h1, h2]
  · intro hbad n
    rw [hsplit, cardStep]
    by_cases hc : ((l.length, lastRow) : Nat × Row).2.ncols < 7
    · rw [if_pos hc]
      exact hpre s n
    · rw [if_neg hc]
      rcases hbad with hb1 | hb2
      · exact absurd hb1 hc
      · rw [if_pos (by simp [hb2])]
        exact hpre s n

/-- C10 (witness): on a card ending in a singles row, X and Y each gain
one main event; on a card ending in a tag-team row, nobody does. -/
theorem C10_main_event_credit_witness :
    (processCard [rowTag, rowSingles "X" "Y"] "E" "D" initWState "X").main_events
        = (initWState "X").main_events + 1 ∧
    (processCard [rowSingles "X" "Y", rowTag] "E" "D" initWState "X").main_events
        = (initWState "X").main_events := by
  constructor
  · exact ((C10_main_event_credit [rowTag, rowSingles "X" "Y"] "E" "D" initWState
      (rowSingles "X" "Y") (by decide)).1 (by decide)).1
  · exact (C10_main_event_credit [rowSingles "X" "Y", rowTag] "E" "D" initWState
      rowTag (by decide)).2 (Or.inr (by decide)) "X"

end Wrestling
